import Mathlib

/-!
# Verification of `testImmutableClass` (immutable-class-tester)

A shallow embedding of the conformance checker `testImmutableClass` from
`src/index.ts`, together with the example classes that the repository's own
mocha suite uses as fixtures, and theorems settling the specification claims.

Modelling conventions:
* JS plain data is the inductive `JSValue` (`undefined`, `null`, booleans,
  numbers, strings, arrays, objects).  Numbers are `Int` (the samples and the
  checker never exercise non-integral floating point behaviour).
* In-place mutation of a `fromJS` argument is modelled by explicit state
  passing: `fromJS` returns, besides its result, the post-call value of its
  first argument.  The checker threads the contents of the caller's `objects`
  array through every phase and returns the final contents.
* Thrown JS errors are values of `JSError`; fallible operations return
  `Except JSError _`.  Chai assertion failures are `JSError.assertion` with
  the message the source builds (custom message plus chai's appended
  explanation such as ": expected x to deeply equal y").
* Chai's `deep.equal` is `deepEq`, which ignores object key order exactly as
  chai's deep-eql does for plain data (object fields are assumed key-unique,
  as JS objects are).
* `JSON.parse(JSON.stringify(v))` is `jsonNormalize v : Option JSValue`;
  `none` models `JSON.stringify` returning `undefined` (so that a subsequent
  `JSON.parse` throws a `SyntaxError`).  Inside arrays `undefined` becomes
  `null`, inside objects fields with `undefined` values are dropped.
-/

/-- A JavaScript plain value (JSON-style data plus `undefined`). -/
inductive JSValue where
  | undefined : JSValue
  | null : JSValue
  | bool (b : Bool) : JSValue
  | num (n : Int) : JSValue
  | str (s : String) : JSValue
  | arr (xs : List JSValue) : JSValue
  | obj (fs : List (String × JSValue)) : JSValue

/-- An arbitrary JS value handed to an instance method such as `equals`:
either plain data or an instance of the candidate class. -/
inductive JSAny (Inst : Type) where
  | val (v : JSValue)
  | inst (i : Inst)

/-- A thrown JS error, tagged by its constructor. `assertion` is chai's
`AssertionError`, `error` a plain `Error`. -/
inductive JSError where
  | typeError (msg : String)
  | syntaxError (msg : String)
  | assertion (msg : String)
  | error (msg : String)
  deriving DecidableEq, Repr

mutual

/-- Chai's `deep.equal` on plain data: structural, but ignoring object key
order (chai compares the two key sets and the value at each key). -/
def deepEq : JSValue → JSValue → Bool
  | .undefined, .undefined => true
  | .null, .null => true
  | .bool a, .bool b => a == b
  | .num a, .num b => a == b
  | .str a, .str b => a == b
  | .arr xs, .arr ys => deepEqList xs ys
  | .obj fs, .obj gs => fs.length == gs.length && deepEqFields fs gs
  | _, _ => false

def deepEqList : List JSValue → List JSValue → Bool
  | [], [] => true
  | x :: xs, y :: ys => deepEq x y && deepEqList xs ys
  | _, _ => false

def deepEqFields : List (String × JSValue) → List (String × JSValue) → Bool
  | [], _ => true
  | (k, v) :: fs, gs =>
    (match gs.find? (fun kw => kw.1 == k) with
     | some kw => deepEq v kw.2
     | none => false) && deepEqFields fs gs

end

mutual

/-- The value produced by `JSON.parse(JSON.stringify v)`, or `none` when
`JSON.stringify v` is `undefined` (so `JSON.parse` would throw).  Matches the
JSON semantics the checker relies on: `undefined` array elements serialize as
`null`, object fields with `undefined` values are dropped. -/
def jsonNormalize : JSValue → Option JSValue
  | .undefined => none
  | .null => some .null
  | .bool b => some (.bool b)
  | .num n => some (.num n)
  | .str s => some (.str s)
  | .arr xs => some (.arr (jsonNormalizeList xs))
  | .obj fs => some (.obj (jsonNormalizeFields fs))

def jsonNormalizeList : List JSValue → List JSValue
  | [] => []
  | x :: xs => (jsonNormalize x).getD .null :: jsonNormalizeList xs

def jsonNormalizeFields : List (String × JSValue) → List (String × JSValue)
  | [] => []
  | (k, v) :: fs =>
    match jsonNormalize v with
    | some w => (k, w) :: jsonNormalizeFields fs
    | none => jsonNormalizeFields fs

end

mutual

/-- A rendering of a value inside an error message (chai's inspect; strings
are quoted with single quotes, written via the `\x27` escape). -/
def inspectJS : JSValue → String
  | .undefined => "undefined"
  | .null => "null"
  | .bool b => if b then "true" else "false"
  | .num n => toString n
  | .str s => "\x27" ++ s ++ "\x27"
  | .arr [] => "[]"
  | .arr (x :: xs) => "[ " ++ inspectJS x ++ inspectJSList xs ++ " ]"
  | .obj [] => "\x7b\x7d"
  | .obj ((k, v) :: fs) =>
    "\x7b " ++ k ++ ": " ++ inspectJS v ++ inspectJSFields fs ++ " \x7d"

def inspectJSList : List JSValue → String
  | [] => ""
  | x :: xs => ", " ++ inspectJS x ++ inspectJSList xs

def inspectJSFields : List (String × JSValue) → String
  | [] => ""
  | (k, v) :: fs => ", " ++ k ++ ": " ++ inspectJS v ++ inspectJSFields fs

end

/-- JS truthiness of a plain value. -/
def jsTruthy : JSValue → Bool
  | .undefined => false
  | .null => false
  | .bool b => b
  | .num n => n != 0
  | .str s => !s.isEmpty
  | .arr _ => true
  | .obj _ => true

/-- JS `Object.keys` for a non-null, non-undefined value: own enumerable keys
(field names of objects, index strings of arrays and strings, nothing for
other primitives). -/
def jsKeys : JSValue → List String
  | .obj fs => fs.map (fun kv => kv.1)
  | .arr xs => (List.range xs.length).map (fun n => toString n)
  | .str s => (List.range s.length).map (fun n => toString n)
  | _ => []

/-- Property access `v[k]` on plain data (`undefined` when absent). -/
def jsGet (v : JSValue) (k : String) : JSValue :=
  match v with
  | .obj fs =>
    match fs.find? (fun kv => kv.1 == k) with
    | some kv => kv.2
    | none => .undefined
  | _ => .undefined

/-- Test `typeof v === 'string'`. -/
def isStr : JSValue → Bool
  | .str _ => true
  | _ => false

/-- JS strict equality `===` on plain values.  Distinct object/array
references are never `===`; the checker only ever applies `===` to results of
`equals` (booleans) and the fixtures apply it to primitive fields, so
modelling reference equality of composites as `false` is faithful here. -/
def strictEq : JSValue → JSValue → Bool
  | .undefined, .undefined => true
  | .null, .null => true
  | .bool a, .bool b => a == b
  | .num a, .num b => a == b
  | .str a, .str b => a == b
  | _, _ => false

/-- Computes `className[0].toLowerCase() + className.substring(1)`. -/
def lowerFirst (s : String) : String :=
  match s.toList with
  | [] => ""
  | c :: cs => String.mk (Char.toLower c :: cs)

/-- The candidate type under test (`ClassFn`), with the capabilities the
checker probes.  `fromJS` returns its `Except` outcome together with the
post-call value of its first argument, which models in-place mutation of that
argument.  The `has…` flags model which members exist (or, for `valueOf` and
`toString`, are overridden rather than inherited from `Object.prototype`). -/
structure ClassSpec (Inst : Type) where
  /-- Whether `typeof ClassFn === 'function'`. -/
  isFn : Bool := true
  /-- The value `ClassFn.name`. -/
  name : String
  /-- Whether `typeof ClassFn.fromJS === 'function'`. -/
  hasFromJS : Bool := true
  /-- The call `ClassFn.fromJS(value, context)`; second result component is the
  post-call value of `value` (mutation model). -/
  fromJS : JSValue → Option JSValue → Except JSError Inst × JSValue
  /-- The call `new ClassFn(value)`. -/
  construct : JSValue → Except JSError Inst
  /-- The value `ClassFn.PROPERTIES` (absent for old-style classes). -/
  properties : Option JSValue := none
  /-- Whether `inst instanceof ClassFn` (with the constructor-name fallback). -/
  isInst : Inst → Bool
  /-- Whether `instance.valueOf !== Object.prototype.valueOf`. -/
  hasOwnValueOf : Bool := true
  /-- Whether `instance.toString !== Object.prototype.toString`. -/
  hasOwnToString : Bool := true
  /-- Whether `typeof instance.toJS === 'function'`. -/
  hasToJS : Bool := true
  /-- Whether `typeof instance.toJSON === 'function'`. -/
  hasToJSON : Bool := true
  /-- Whether `typeof instance.equals === 'function'`. -/
  hasEquals : Bool := true
  /-- The call `inst.toString()` (the checker verifies the result is a string). -/
  instToString : Inst → JSValue
  /-- The call `inst.valueOf()`. -/
  valueOf : Inst → JSValue
  /-- The call `inst.toJS()`. -/
  toJS : Inst → JSValue
  /-- The call `inst.toJSON()` (used by `JSON.stringify(inst)`). -/
  toJSON : Inst → JSValue
  /-- The call `inst.equals(other)`. -/
  equals : Inst → JSAny Inst → Bool
  /-- The instance's own enumerable fields (used for the shallow copy). -/
  ownFields : Inst → List (String × JSValue)

/-- The `TesterOptions` argument of `testImmutableClass`. -/
structure TesterOptions where
  newThrows : Bool := false
  context : Option JSValue := none

/-- The fixed recognized key set `PROPERTY_KEYS` of `src/index.ts`. -/
def PROPERTY_KEYS : List String :=
  [ "name", "defaultValue", "possibleValues", "validate", "immutableClass",
    "immutableClassArray", "immutableClassLookup", "equal", "toJS", "type",
    "contextTransform", "preserveUndefined", "emptyArrayIsOk" ]

/-- The `[in object i]` tag attached to per-sample failure messages. -/
def whereTag (i : Nat) : String := "[in object " ++ toString i ++ "]"

/-- Chai's appended explanation for a failed `to.deep.equal`. -/
def deepEqualSuffix (actual expected : JSValue) : String :=
  ": expected " ++ inspectJS actual ++ " to deeply equal " ++ inspectJS expected

/-- Message of the failed input-mutation check (note: no `whereTag`). -/
def modifiedInputMsg (className : String) (actual expected : JSValue) : String :=
  className ++ ".fromJS function modified its input :-(" ++ deepEqualSuffix actual expected

/-- Message of the failed `instanceof` check. -/
def notInstanceMsg (className : String) (i : Nat) : String :=
  className ++ ".fromJS did not return a " ++ className ++ " instance " ++ whereTag i
    ++ ": expected value to be an instance of " ++ className

/-- Message of the failed `toString()` string check. -/
def toStringNotStringMsg (className : String) (i : Nat) (actual : JSValue) : String :=
  lowerFirst className ++ ".toString() must return a string " ++ whereTag i
    ++ ": expected " ++ inspectJS actual ++ " to be a string"

/-- Message of the failed `equals(null)` check. -/
def equalsNullMsg (className : String) (i : Nat) : String :=
  lowerFirst className ++ ".equals(null) should be false " ++ whereTag i
    ++ ": expected true to equal false"

/-- Message of the failed `equals([])` check. -/
def equalsEmptyArrayMsg (className : String) (i : Nat) : String :=
  lowerFirst className ++ ".equals([]) should be false " ++ whereTag i
    ++ ": expected true to equal false"

/-- Message of the failed fixed-point check, with chai's expected/actual. -/
def fixedPointMsg (className : String) (i : Nat) (actual expected : JSValue) : String :=
  className ++ ".fromJS(obj).toJS() was not a fixed point (did not deep equal obj) "
    ++ whereTag i ++ deepEqualSuffix actual expected

/-- Message of the failed `equals(valueOf())` check. -/
def equalsValueOfMsg (i : Nat) : String :=
  "inst.equals(inst.valueOf()) " ++ whereTag i ++ ": expected true to equal false"

/-- Message of the failed shallow-copy anti-duck-typing check. -/
def equalsLazyCopyMsg (i : Nat) : String :=
  "inst.equals(*an object with the same values*) " ++ whereTag i
    ++ ": expected true to equal false"

/-- Message when `new ClassFn` was expected to throw but did not. -/
def newDidNotThrowMsg (className : String) (i : Nat) : String :=
  "new " ++ className ++ " did not throw as indicated " ++ whereTag i
    ++ ": expected [Function] to throw an error"

/-- Message when the directly constructed copy is not `equals` the original. -/
def newNotEqualMsg (className : String) (i : Nat) : String :=
  "new " ++ className ++ "().toJS() is not equal to the original " ++ whereTag i
    ++ ": expected false to equal true"

/-- Message when the directly constructed copy has a different `toJS()`. -/
def newToJSBadMsg (className : String) (i : Nat) (actual expected : JSValue) : String :=
  "new " ++ className ++ "(" ++ lowerFirst className ++ ".valueOf()).toJS() returned something bad "
    ++ whereTag i ++ deepEqualSuffix actual expected

/-- Message when the JSON round-trip copy is not `equals` the original. -/
def jsCopyNotEqualMsg (i : Nat) : String :=
  "JS Copy does not equal original " ++ whereTag i ++ ": expected false to equal true"

/-- Message when the JSON round-trip copy has a different `toJS()`. -/
def jsonRoundTripBadMsg (className : String) (i : Nat) (actual expected : JSValue) : String :=
  className ++ ".fromJS(JSON.parse(JSON.stringify(" ++ lowerFirst className
    ++ "))).toJS() returned something bad " ++ whereTag i ++ deepEqualSuffix actual expected

/-- Message of a failed cross-sample equality check; `got` is the value
`objectJ.equals(objectK)` returned (the expected value is its negation,
since the assertion only fails on a mismatch). -/
def crossEqualityMsg (j k : Nat) (got : Bool) : String :=
  "Equality of objects " ++ toString j ++ " and " ++ toString k ++ " was wrong: expected "
    ++ (if got then "true" else "false") ++ " to equal "
    ++ (if got then "false" else "true")

/-- The `SyntaxError` thrown by `JSON.parse(undefined)`. -/
def jsonParseUndefErr : JSError :=
  .syntaxError "Unexpected token u in JSON at position 0"

/-- The instance-method surface checks of `testImmutableClass` (`valueOf` and
`toString` overridden; `toJS`, `toJSON`, `equals` functions), in source
order. -/
def instanceChecks {Inst : Type} (C : ClassSpec Inst) : Except JSError Unit :=
  if C.hasOwnValueOf = false then
    .error (.assertion "Instance should implement valueOf: expected [Function] to not equal [Function: valueOf]")
  else if C.hasOwnToString = false then
    .error (.assertion "Instance should implement toString: expected [Function] to not equal [Function: toString]")
  else if C.hasToJS = false then
    .error (.assertion "Instance should have a toJS function: expected undefined to be a function")
  else if C.hasToJSON = false then
    .error (.assertion "Instance should have a toJSON function: expected undefined to be a function")
  else if C.hasEquals = false then
    .error (.assertion "Instance should have an equals function: expected undefined to be a function")
  else .ok ()

/-- The inner `Object.keys(property).forEach` of the PROPERTIES check: for
each key, the key must be recognized and `property.name` must be a string. -/
def checkPropertyKeys (p : JSValue) : List String → Except JSError Unit
  | [] => .ok ()
  | k :: ks =>
    if (PROPERTY_KEYS.contains k) = false then
      .error (.assertion ("expected [ Array(13) ] to include \x27" ++ k ++ "\x27"))
    else if isStr (jsGet p "name") = false then
      .error (.assertion ("expected " ++ inspectJS (jsGet p "name") ++ " to be a string"))
    else checkPropertyKeys p ks

/-- One property descriptor: `Object.keys` throws on `null`/`undefined`,
otherwise iterate the keys. -/
def checkProperty (p : JSValue) : Except JSError Unit :=
  match p with
  | .null => .error (.typeError "Cannot convert undefined or null to object")
  | .undefined => .error (.typeError "Cannot convert undefined or null to object")
  | _ => checkPropertyKeys p (jsKeys p)

/-- The loop `ClassFn.PROPERTIES.forEach(property => …)`. -/
def checkProperties : List JSValue → Except JSError Unit
  | [] => .ok ()
  | p :: ps =>
    match checkProperty p with
    | .error e => .error e
    | .ok _ => checkProperties ps

/-- The optional PROPERTIES phase: run only when `ClassFn.PROPERTIES` is
truthy; it must then be an array whose descriptors all pass. -/
def propertiesCheck {Inst : Type} (C : ClassSpec Inst) : Except JSError Unit :=
  match C.properties with
  | none => .ok ()
  | some pv =>
    if jsTruthy pv = false then .ok ()
    else
      match pv with
      | .arr ps => checkProperties ps
      | _ => .error (.assertion ("PROPERTIES should be an array: expected "
          ++ inspectJS pv ++ " to be an array"))

/-- The `newThrows` branch of the per-sample loop: direct construction from
`instValueOf` must throw when `newThrows` is set; otherwise it must produce
an instance `equals` the original with a deep-equal `toJS()`. -/
def newThrowsCheck {Inst : Type} (C : ClassSpec Inst) (newThrows : Bool) (i : Nat)
    (inst : Inst) (instValueOf : JSValue) : Except JSError Unit :=
  if newThrows then
    match C.construct instValueOf with
    | .error _ => .ok ()
    | .ok _ => .error (.assertion (newDidNotThrowMsg C.name i))
  else
    match C.construct instValueOf with
    | .error e => .error e
    | .ok instValueCopy =>
      if C.equals inst (.inst instValueCopy) = false then
        .error (.assertion (newNotEqualMsg C.name i))
      else if deepEq (C.toJS instValueCopy) (C.toJS inst) = false then
        .error (.assertion (newToJSBadMsg C.name i (C.toJS instValueCopy) (C.toJS inst)))
      else .ok ()

/-- The JSON round-trip check of the per-sample loop:
`ClassFn.fromJS(JSON.parse(JSON.stringify(inst)), context)` must be `equals`
the original and have a deep-equal `toJS()`.  `JSON.stringify(inst)` goes
through `inst.toJSON()`. -/
def jsonCopyCheck {Inst : Type} (C : ClassSpec Inst) (ctx : Option JSValue) (i : Nat)
    (inst : Inst) : Except JSError Unit :=
  match jsonNormalize (C.toJSON inst) with
  | none => .error jsonParseUndefErr
  | some parsed =>
    match C.fromJS parsed ctx with
    | (.error e, _) => .error e
    | (.ok instJSONCopy, _) =>
      if C.equals inst (.inst instJSONCopy) = false then
        .error (.assertion (jsCopyNotEqualMsg i))
      else if deepEq (C.toJS instJSONCopy) (C.toJS inst) = false then
        .error (.assertion (jsonRoundTripBadMsg C.name i (C.toJS instJSONCopy) (C.toJS inst)))
      else .ok ()

/-- The body of the per-sample loop (`for (let i = 0; …)`) of
`testImmutableClass` for index `i` and current sample value `obj`:
serialize `obj` and parse it twice, call `fromJS` on one copy, verify the
copy was not mutated, then run the behavioral assertions in source order.
`fromJS` is applied only to fresh copies, never to `obj` itself, so the body
never changes the caller's array. -/
def perObjectCheck {Inst : Type} (C : ClassSpec Inst) (opts : TesterOptions) (i : Nat)
    (obj : JSValue) : Except JSError Unit :=
  match jsonNormalize obj with
  | none => .error jsonParseUndefErr
  | some objectCopy =>
    match C.fromJS objectCopy opts.context with
    | (.error e, _) => .error e
    | (.ok inst, copyAfter) =>
      if deepEq copyAfter objectCopy = false then
        .error (.assertion (modifiedInputMsg C.name copyAfter objectCopy))
      else if C.isInst inst = false then
        .error (.assertion (notInstanceMsg C.name i))
      else if isStr (C.instToString inst) = false then
        .error (.assertion (toStringNotStringMsg C.name i (C.instToString inst)))
      else if C.equals inst (.val .null) = true then
        .error (.assertion (equalsNullMsg C.name i))
      else if C.equals inst (.val (.arr [])) = true then
        .error (.assertion (equalsEmptyArrayMsg C.name i))
      else if deepEq (C.toJS inst) obj = false then
        .error (.assertion (fixedPointMsg C.name i (C.toJS inst) obj))
      else if C.equals inst (.val (C.valueOf inst)) = true then
        .error (.assertion (equalsValueOfMsg i))
      else if C.equals inst (.val (.obj (C.ownFields inst))) = true then
        .error (.assertion (equalsLazyCopyMsg i))
      else
        match newThrowsCheck C opts.newThrows i inst (C.valueOf inst) with
        | .error e => .error e
        | .ok _ => jsonCopyCheck C opts.context i inst

/-- The per-sample phase: run `perObjectCheck` on each sample in order,
starting at index `i`. -/
def objectsPhase {Inst : Type} (C : ClassSpec Inst) (opts : TesterOptions) :
    Nat → List JSValue → Except JSError Unit
  | _, [] => .ok ()
  | i, obj :: rest =>
    match perObjectCheck C opts i obj with
    | .error e => .error e
    | .ok _ => objectsPhase C opts (i + 1) rest

/-- Inner loop of the cross-sample phase: `for (let k = j; k < n; k++)`,
with `count = n - k` iterations left.  `fromJS` is applied directly to the
live array element `objects[k]`, whose post-call value is written back
(mutation model). -/
def crossInner {Inst : Type} (C : ClassSpec Inst) (ctx : Option JSValue) (objJ : Inst)
    (j : Nat) : Nat → Nat → List JSValue → Except JSError Unit × List JSValue
  | _, 0, xs => (.ok (), xs)
  | k, count + 1, xs =>
    match C.fromJS (xs.getD k .null) ctx with
    | (.error e, m) => (.error e, xs.set k m)
    | (.ok objK, m) =>
      let xs2 := xs.set k m
      if C.equals objJ (.inst objK) = decide (j = k) then
        crossInner C ctx objJ j (k + 1) count xs2
      else
        (.error (.assertion (crossEqualityMsg j k (C.equals objJ (.inst objK)))), xs2)

/-- Outer loop of the cross-sample phase: `for (let j = 0; j < n; j++)`,
with `count = n - j` iterations left. -/
def crossOuter {Inst : Type} (C : ClassSpec Inst) (ctx : Option JSValue) :
    Nat → Nat → List JSValue → Except JSError Unit × List JSValue
  | _, 0, xs => (.ok (), xs)
  | j, count + 1, xs =>
    match C.fromJS (xs.getD j .null) ctx with
    | (.error e, m) => (.error e, xs.set j m)
    | (.ok objJ, m) =>
      let xs2 := xs.set j m
      match crossInner C ctx objJ j j (count + 1) xs2 with
      | (.error e, xs3) => (.error e, xs3)
      | (.ok _, xs3) => crossOuter C ctx (j + 1) count xs3

/-- The cross-sample equality phase ("Objects are equal only to themselves"). -/
def crossPhase {Inst : Type} (C : ClassSpec Inst) (ctx : Option JSValue)
    (xs : List JSValue) : Except JSError Unit × List JSValue :=
  crossOuter C ctx 0 xs.length xs

/-- Everything of `testImmutableClass` after the `ClassFn`/`objects`
preconditions, for the non-empty sample list `x0 :: rest`: class-name check,
static `fromJS` check, reference-instance construction (which, in the
mutation model, may rewrite `objects[0]`), instance surface checks,
PROPERTIES phase, per-sample phase, cross-sample phase.  The second result
component is the final contents of the caller's `objects` array. -/
def checkerMain {Inst : Type} (C : ClassSpec Inst) (opts : TesterOptions)
    (x0 : JSValue) (rest : List JSValue) : Except JSError Unit × List JSValue :=
  if C.name.length < 1 then
    (.error (.error "Class must have a name of at least 1 letter"), x0 :: rest)
  else if C.hasFromJS = false then
    (.error (.assertion (C.name ++ ".fromJS should exist: expected undefined to be a function")),
      x0 :: rest)
  else
    match C.fromJS x0 opts.context with
    | (.error e, x0After) => (.error e, x0After :: rest)
    | (.ok _inst0, x0After) =>
      match instanceChecks C with
      | .error e => (.error e, x0After :: rest)
      | .ok _ =>
        match propertiesCheck C with
        | .error e => (.error e, x0After :: rest)
        | .ok _ =>
          match objectsPhase C opts 0 (x0After :: rest) with
          | .error e => (.error e, x0After :: rest)
          | .ok _ => crossPhase C opts.context (x0After :: rest)

/-- The conformance checker `testImmutableClass(ClassFn, objects, options)`.
Returns the outcome (success, or the first thrown error) together with the
final value of the caller's `objects` argument (the mutation model makes the
array contents observable). -/
def testImmutableClass {Inst : Type} (C : ClassSpec Inst) (objects : JSValue)
    (options : TesterOptions) : Except JSError Unit × JSValue :=
  if C.isFn = false then
    (.error (.typeError "ClassFn must be a constructor function"), objects)
  else
    match objects with
    | .arr (x0 :: rest) =>
      let r := checkerMain C options x0 rest
      (r.1, .arr r.2)
    | _ => (.error (.typeError "objects must be a non-empty array of js to test"), objects)

/-! ## Fixture classes

The example classes of `src/index.mocha.ts`, embedded with `Inst` being the
payload each class stores.  They double as concrete inputs for witnesses. -/

/-- Computes `name.replace(/^#/, '')` (`Char.ofNat 35` is the hash character). -/
def stripHash (s : String) : String :=
  match s.toList with
  | c :: cs => if c = Char.ofNat 35 then String.mk cs else s
  | [] => s

/-- The factory `Animal.fromJS`: remove a leading hashtag, then `new Animal(name)`; on a
non-string input `name.replace` is not a function. -/
def animalFromJS (v : JSValue) : Except JSError JSValue :=
  match v with
  | .str s => .ok (.str (stripHash s))
  | _ => .error (.typeError "name.replace is not a function")

/-- The method `Animal.prototype.equals`: other must be an `Animal` with `===` name. -/
def animalEquals (payload : JSValue) (other : JSAny JSValue) : Bool :=
  match other with
  | .inst q => strictEq payload q
  | .val _ => false

/-- The `Animal` example class; the instance payload is `this.name`. -/
def AnimalSpec : ClassSpec JSValue where
  name := "Animal"
  fromJS := fun v _ctx => (animalFromJS v, v)
  construct := fun v => .ok v
  isInst := fun _ => true
  instToString := fun p => p
  valueOf := fun p => p
  toJS := fun p => p
  toJSON := fun p => p
  equals := animalEquals
  ownFields := fun p => [("name", p)]

/-- The `AnimalNoFromJS` example class: no static `fromJS`, no instance
methods beyond the defaults. -/
def AnimalNoFromJSSpec : ClassSpec JSValue where
  name := "AnimalNoFromJS"
  hasFromJS := false
  fromJS := fun v _ctx => (.error (.typeError "ClassFn.fromJS is not a function"), v)
  construct := fun v => .ok v
  isInst := fun _ => true
  hasOwnValueOf := false
  hasOwnToString := false
  hasToJS := false
  hasToJSON := false
  hasEquals := false
  instToString := fun p => p
  valueOf := fun p => p
  toJS := fun p => p
  toJSON := fun p => p
  equals := animalEquals
  ownFields := fun p => [("name", p)]

/-- The `AnimalBadToJS` example class: `fromJS` keeps the name as given but
`toJS()` prepends `"Bad "`. -/
def AnimalBadToJSSpec : ClassSpec JSValue where
  name := "AnimalBadToJS"
  fromJS := fun v _ctx =>
    (match v with
     | .str s => .ok (.str s)
     | _ => .error (.typeError "this.name is not a string"), v)
  construct := fun v => .ok v
  isInst := fun _ => true
  instToString := fun p => p
  valueOf := fun p => p
  toJS := fun p =>
    match p with
    | .str s => .str ("Bad " ++ s)
    | v => v
  toJSON := fun p => p
  equals := animalEquals
  ownFields := fun p => [("name", p)]

/-- The factory `AnimalWithContext.fromJS`: look the weight up in the context; throw when
it is missing (falsy). -/
def animalWithContextFromJS (v : JSValue) (ctx : Option JSValue) :
    Except JSError (JSValue × JSValue) :=
  match v with
  | .str s =>
    let w := jsGet (ctx.getD .undefined) s
    if jsTruthy w = false then .error (.error "unknown animal (it has no weight)")
    else .ok (.str s, w)
  | _ => .error (.error "unknown animal (it has no weight)")

/-- The `AnimalWithContext` example class; the payload is `(name, weight)`.
Only `name` takes part in `equals`, `toJS`, `toJSON`, `toString`, `valueOf`
(which returns `{ n: name }`). -/
def AnimalWithContextSpec : ClassSpec (JSValue × JSValue) where
  name := "AnimalWithContext"
  fromJS := fun v ctx => (animalWithContextFromJS v ctx, v)
  construct := fun v => .ok (jsGet v "n", jsGet v "w")
  isInst := fun _ => true
  instToString := fun p => p.1
  valueOf := fun p => .obj [("n", p.1)]
  toJS := fun p => p.1
  toJSON := fun p => p.1
  equals := fun p other =>
    match other with
    | .inst q => strictEq p.1 q.1
    | .val _ => false
  ownFields := fun p => [("name", p.1), ("weight", p.2)]

/-- Modelled from the spec (P6): a conforming class whose direct constructor
always throws, exercising the `newThrows` configuration (the repository's
fixtures never set `newThrows`; the spec's P6 describes the expectation). -/
def AnimalNewThrowsSpec : ClassSpec JSValue :=
  { AnimalSpec with
      name := "AnimalNewThrows"
      construct := fun _ => .error (.error "direct construction is not allowed") }

/-- JSON-style normalization of list elements, `undefined` becoming `null` (done in place by
`MutAnimalSpec.fromJS` on its argument). -/
def denormList : List JSValue → List JSValue
  | [] => []
  | .null :: xs => .undefined :: denormList xs
  | x :: xs => x :: denormList xs

/-- The method `MutAnimal.toJS`: turn `null` array elements back into `undefined`. -/
def mutToJS : JSValue → JSValue
  | .arr xs => .arr (denormList xs)
  | v => v

/-- A class whose `fromJS` normalizes its argument **in place** (JSON-style:
`undefined` array elements become `null`) and stores the normalized value,
while `toJS()` denormalizes.  On already-normalized input (in particular on
every `JSON.parse(JSON.stringify(…))` copy the per-sample phase feeds it)
it performs no observable mutation, so every check passes; on a raw sample
containing `undefined` it rewrites the caller's array element. -/
def MutAnimalSpec : ClassSpec JSValue where
  name := "MutAnimal"
  fromJS := fun v _ctx =>
    match jsonNormalize v with
    | some w => (.ok w, w)
    | none => (.error (.typeError "cannot normalize undefined"), v)
  construct := fun v => .ok (jsGet v "v")
  isInst := fun _ => true
  instToString := fun _ => .str "mutAnimal"
  valueOf := fun p => .obj [("v", p)]
  toJS := mutToJS
  toJSON := fun p => p
  equals := fun p other =>
    match other with
    | .inst q => deepEq p q
    | .val _ => false
  ownFields := fun p => [("v", p)]


/-! ## Predicates used in the claim statements -/

/-- States that `fromJS` never mutates its argument: the post-call value of the argument
is the value passed in. -/
def NonMutating {Inst : Type} (C : ClassSpec Inst) : Prop :=
  ∀ v ctx, (C.fromJS v ctx).2 = v

/-- The candidate's own code never throws a chai `AssertionError` (assertion
errors can then only come from the checker's own `expect` calls). -/
def NoAssertionThrows {Inst : Type} (C : ClassSpec Inst) : Prop :=
  (∀ v ctx m s, C.fromJS v ctx ≠ (.error (.assertion s), m)) ∧
  (∀ v s, C.construct v ≠ .error (.assertion s))

/-- The cross-sample phase property asserted by the checker: every ordered
pair `(j, k)` with `j ≤ k` of sample indices yields, via two independent
`fromJS` calls, instances whose `equals` result is `true` exactly when
`j = k`. -/
def PairwiseEqualsOk {Inst : Type} (C : ClassSpec Inst) (ctx : Option JSValue)
    (xs : List JSValue) : Prop :=
  ∀ j k, j ≤ k → k < xs.length →
    ∃ objJ mJ objK mK,
      C.fromJS (xs.getD j .null) ctx = (.ok objJ, mJ) ∧
      C.fromJS (xs.getD k .null) ctx = (.ok objK, mK) ∧
      C.equals objJ (.inst objK) = decide (j = k)

/-- Holds when `part` occurs as a contiguous substring of `msg` (on the character
lists). -/
def containsSubstring (msg part : String) : Prop :=
  part.toList <:+: msg.toList

instance (msg part : String) : Decidable (containsSubstring msg part) :=
  List.decidableInfix part.toList msg.toList

/-- Recognizes the (untagged) input-modification failure message of the
class named `nm`: such messages start with the fixed text the source builds
before chai appends the expected/actual explanation. -/
def isModifiedInputMsgOf (nm msg : String) : Bool :=
  (nm ++ ".fromJS function modified its input :-(").toList.isPrefixOf msg.toList

/-- The checker's control state on entering the per-sample loop body for
relative index `d`: the preconditions and the phases before the loop have
passed (with `objects[0]` rewritten to `x0After` by the reference-instance
construction), and every earlier loop iteration succeeded. -/
def ReachesSample {Inst : Type} (C : ClassSpec Inst) (opts : TesterOptions)
    (x0 : JSValue) (rest : List JSValue) (x0After : JSValue) (d : Nat) : Prop :=
  C.isFn = true ∧ 1 ≤ C.name.length ∧ C.hasFromJS = true ∧
  (∃ inst0, C.fromJS x0 opts.context = (.ok inst0, x0After)) ∧
  instanceChecks C = .ok () ∧ propertiesCheck C = .ok () ∧
  d < (x0After :: rest).length ∧
  (∀ d2, d2 < d → perObjectCheck C opts d2 ((x0After :: rest).getD d2 .null) = .ok ())

/-! ## Further concrete classes used as witnesses and counterexamples -/

/-- An `Animal` passed as something that is not a function
(`typeof ClassFn !== 'function'`). -/
def AnimalNotAFunction : ClassSpec JSValue :=
  { AnimalSpec with isFn := false }

/-- An anonymous `Animal` (`ClassFn.name` is the empty string). -/
def AnimalAnonymous : ClassSpec JSValue :=
  { AnimalSpec with name := "" }

/-- An `Animal` whose `fromJS` appends a bang to its argument **in place**
(a mutating factory, caught by the per-sample mutation check). -/
def AnimalMutatesInput : ClassSpec JSValue :=
  { AnimalSpec with
      name := "AnimalMutatesInput"
      fromJS := fun v _ctx =>
        (animalFromJS v,
          match v with
          | .str s => .str (s ++ "!")
          | w => w) }

/-- An `Animal` whose `equals` wrongly accepts `null`. -/
def AnimalEqualsNull : ClassSpec JSValue :=
  { AnimalSpec with
      name := "AnimalEqualsNull"
      equals := fun p other =>
        match other with
        | .val .null => true
        | .inst q => strictEq p q
        | .val _ => false }

/-- An ideal identity-style class: `fromJS` accepts exactly strings and
stores them unchanged, every derived form is the stored string. -/
def AnimalId : ClassSpec JSValue :=
  { AnimalSpec with
      name := "AnimalId"
      fromJS := fun v _ctx =>
        (match v with
         | .str s => .ok (.str s)
         | _ => .error (.typeError "name is not a string"), v) }

/-- An `Animal` exposing a PROPERTIES list whose single descriptor is the
empty object (no keys at all, in particular no `name`). -/
def AnimalEmptyDescriptor : ClassSpec JSValue :=
  { AnimalSpec with properties := some (.arr [.obj []]) }

/-- An `Animal` exposing a well-formed PROPERTIES list. -/
def AnimalGoodProps : ClassSpec JSValue :=
  { AnimalSpec with properties := some (.arr [.obj [("name", .str "name")]]) }

/-- An `Animal` exposing a PROPERTIES descriptor that has a recognized key
but no `name` field. -/
def AnimalNamelessProps : ClassSpec JSValue :=
  { AnimalSpec with properties := some (.arr [.obj [("defaultValue", .num 3)]]) }

/-! ## Validation: the embedding reproduces the repository's own mocha suite -/

/-- Mocha: "works for Animal class". -/
theorem animal_suite_ok :
    testImmutableClass AnimalSpec
      (.arr [.str "Koala", .str "Snake", .str "Dog", .str "Cat"]) {} =
    (.ok (), .arr [.str "Koala", .str "Snake", .str "Dog", .str "Cat"]) := rfl

/-- Mocha: "fails when given non fixed point js", with the exact message the
suite pins down. -/
theorem animal_suite_fixed_point_failure :
    (testImmutableClass AnimalSpec
      (.arr [.str "Koala", .str "Snake", .str "Dog", .str "#Cat"]) {}).1 =
    .error (.assertion "Animal.fromJS(obj).toJS() was not a fixed point (did not deep equal obj) [in object 3]: expected \x27Cat\x27 to deeply equal \x27#Cat\x27") := rfl

/-- Mocha: "rejects AnimalNoFromJS class", with the exact pinned message. -/
theorem animal_suite_no_fromJS :
    (testImmutableClass AnimalNoFromJSSpec
      (.arr [.str "Koala", .str "Snake", .str "Dog"]) {}).1 =
    .error (.assertion "AnimalNoFromJS.fromJS should exist: expected undefined to be a function") := rfl

/-- Mocha: "rejects AnimalBadToJS class", with the exact pinned message. -/
theorem animal_suite_bad_toJS :
    (testImmutableClass AnimalBadToJSSpec
      (.arr [.str "Koala", .str "Snake", .str "Dog"]) {}).1 =
    .error (.assertion "AnimalBadToJS.fromJS(obj).toJS() was not a fixed point (did not deep equal obj) [in object 0]: expected \x27Bad Koala\x27 to deeply equal \x27Koala\x27") := rfl

/-- Mocha: "works for AnimalWithContext class (with context)". -/
theorem animal_suite_with_context :
    (testImmutableClass AnimalWithContextSpec
      (.arr [.str "Koala", .str "Snake", .str "Dog"])
      { context := some (.obj [("Koala", .num 5), ("Snake", .num 4), ("Dog", .num 12)]) }).1 =
    .ok () := rfl

/-- A conforming class whose constructor always throws passes under
`newThrows`. -/
theorem animal_new_throws_ok :
    testImmutableClass AnimalNewThrowsSpec (.arr [.str "Koala"]) { newThrows := true } =
    (.ok (), .arr [.str "Koala"]) := rfl

/-! ## Basic lemmas about the string and list helpers -/

theorem containsSubstring_self (m : String) : containsSubstring m m :=
  List.infix_rfl

theorem containsSubstring_append_left (a m x : String)
    (h : containsSubstring m x) : containsSubstring (a ++ m) x := by
  rcases h with ⟨s, t, hst⟩
  refine ⟨a.toList ++ s, t, ?_⟩
  simp only [String.toList, String.data_append, List.append_assoc] at hst ⊢
  simp [hst]

theorem containsSubstring_append_right (m b x : String)
    (h : containsSubstring m x) : containsSubstring (m ++ b) x := by
  rcases h with ⟨s, t, hst⟩
  refine ⟨s, t ++ b.toList, ?_⟩
  simp only [String.toList, String.data_append, List.append_assoc] at hst ⊢
  rw [← hst]
  simp [List.append_assoc]

/-- Every list stays unchanged when an element is overwritten with its own
current value. -/
theorem set_getD_self : ∀ (xs : List JSValue) (k : Nat), xs.set k (xs.getD k .null) = xs := by
  intro xs
  induction xs with
  | nil => intro k; rfl
  | cons x xs ih =>
    intro k
    cases k with
    | zero => rfl
    | succ k =>
      simp only [List.getD_cons_succ, List.set_cons_succ]
      exact congrArg (List.cons x) (ih k)

/-! ## Success characterizations of the checker's pieces -/

/-- A Bool that is not `false` is `true` (shape produced by `split` on the
checker's `if c = false` tests). -/
theorem eq_true_of_not_eq_false {b : Bool} (h : ¬ b = false) : b = true := by
  cases b
  · exact absurd rfl h
  · rfl

/-- A Bool that is not `true` is `false`. -/
theorem eq_false_of_not_eq_true {b : Bool} (h : ¬ b = true) : b = false := by
  cases b
  · rfl
  · exact absurd rfl h

/-- What it means for the `newThrows` branch to pass. -/
theorem newThrowsCheck_ok {Inst : Type} (C : ClassSpec Inst) (nt : Bool) (i : Nat)
    (inst : Inst) (ivo : JSValue) (h : newThrowsCheck C nt i inst ivo = .ok ()) :
    (nt = true → ∀ inst2, C.construct ivo ≠ .ok inst2) ∧
    (nt = false → ∃ ivc, C.construct ivo = .ok ivc ∧
      C.equals inst (.inst ivc) = true ∧
      deepEq (C.toJS ivc) (C.toJS inst) = true) := by
  unfold newThrowsCheck at h
  split at h
  case isTrue hnt =>
    refine ⟨fun _ inst2 hc => ?_, fun hf => ?_⟩
    · rw [hc] at h
      simp at h
    · rw [hf] at hnt
      simp at hnt
  case isFalse hnt =>
    refine ⟨fun ht => absurd ht hnt, fun _ => ?_⟩
    split at h
    · simp at h
    case _ ivc hc =>
      refine ⟨ivc, hc, ?_, ?_⟩
      · split at h
        case isTrue => simp at h
        case isFalse h1 =>
          split at h
          case isTrue => simp at h
          case isFalse h2 => exact eq_true_of_not_eq_false h1
      · split at h
        case isTrue => simp at h
        case isFalse h1 =>
          split at h
          case isTrue => simp at h
          case isFalse h2 => exact eq_true_of_not_eq_false h2

/-- What it means for the JSON round-trip check to pass. -/
theorem jsonCopyCheck_ok {Inst : Type} (C : ClassSpec Inst) (ctx : Option JSValue)
    (i : Nat) (inst : Inst) (h : jsonCopyCheck C ctx i inst = .ok ()) :
    ∃ parsed instJ mJ,
      jsonNormalize (C.toJSON inst) = some parsed ∧
      C.fromJS parsed ctx = (.ok instJ, mJ) ∧
      C.equals inst (.inst instJ) = true ∧
      deepEq (C.toJS instJ) (C.toJS inst) = true := by
  unfold jsonCopyCheck at h
  split at h
  · simp at h
  case _ parsed hparse =>
    split at h
    · simp at h
    case _ instJ mJ hfrom =>
      split at h
      case isTrue => simp at h
      case isFalse h1 =>
        split at h
        case isTrue => simp at h
        case isFalse h2 =>
          exact ⟨parsed, instJ, mJ, hparse, hfrom,
            eq_true_of_not_eq_false h1, eq_true_of_not_eq_false h2⟩

/-- What it means for the whole per-sample loop body at index `i` and sample
value `obj` to pass: every assertion of the body, in source order. -/
theorem perObjectCheck_ok {Inst : Type} (C : ClassSpec Inst) (opts : TesterOptions)
    (i : Nat) (obj : JSValue) (h : perObjectCheck C opts i obj = .ok ()) :
    ∃ copy inst m,
      jsonNormalize obj = some copy ∧
      C.fromJS copy opts.context = (.ok inst, m) ∧
      deepEq m copy = true ∧
      C.isInst inst = true ∧
      isStr (C.instToString inst) = true ∧
      C.equals inst (.val .null) = false ∧
      C.equals inst (.val (.arr [])) = false ∧
      deepEq (C.toJS inst) obj = true ∧
      C.equals inst (.val (C.valueOf inst)) = false ∧
      C.equals inst (.val (.obj (C.ownFields inst))) = false ∧
      newThrowsCheck C opts.newThrows i inst (C.valueOf inst) = .ok () ∧
      jsonCopyCheck C opts.context i inst = .ok () := by
  unfold perObjectCheck at h
  split at h
  · simp at h
  case _ copy hnorm =>
    split at h
    · simp at h
    case _ inst m hfrom =>
      split at h
      case isTrue => simp at h
      case isFalse h1 =>
        split at h
        case isTrue => simp at h
        case isFalse h2 =>
          split at h
          case isTrue => simp at h
          case isFalse h3 =>
            split at h
            case isTrue => simp at h
            case isFalse h4 =>
              split at h
              case isTrue => simp at h
              case isFalse h5 =>
                split at h
                case isTrue => simp at h
                case isFalse h6 =>
                  split at h
                  case isTrue => simp at h
                  case isFalse h7 =>
                    split at h
                    case isTrue => simp at h
                    case isFalse h8 =>
                      split at h
                      · simp at h
                      case _ hnt =>
                        exact ⟨copy, inst, m, hnorm, hfrom,
                          eq_true_of_not_eq_false h1,
                          eq_true_of_not_eq_false h2,
                          eq_true_of_not_eq_false h3,
                          eq_false_of_not_eq_true h4,
                          eq_false_of_not_eq_true h5,
                          eq_true_of_not_eq_false h6,
                          eq_false_of_not_eq_true h7,
                          eq_false_of_not_eq_true h8,
                          hnt, h⟩

/-- If the per-sample phase passes, the loop body passed at every index. -/
theorem objectsPhase_ok_at {Inst : Type} (C : ClassSpec Inst) (opts : TesterOptions) :
    ∀ (xs : List JSValue) (i0 d : Nat), objectsPhase C opts i0 xs = .ok () →
      d < xs.length → perObjectCheck C opts (i0 + d) (xs.getD d .null) = .ok () := by
  intro xs
  induction xs with
  | nil =>
    intro i0 d _ hd
    simp at hd
  | cons x rest ih =>
    intro i0 d h hd
    unfold objectsPhase at h
    split at h
    · simp at h
    case _ hx =>
      cases d with
      | zero => simpa using hx
      | succ d =>
        have h2 := ih (i0 + 1) d h (Nat.lt_of_succ_lt_succ hd)
        have hidx : i0 + 1 + d = i0 + (d + 1) := by omega
        rw [hidx] at h2
        simpa [List.getD_cons_succ] using h2

/-- If the per-sample phase passes, every sample value passed the loop body
at some index. -/
theorem objectsPhase_ok_mem {Inst : Type} (C : ClassSpec Inst) (opts : TesterOptions) :
    ∀ (xs : List JSValue) (i0 : Nat), objectsPhase C opts i0 xs = .ok () →
      ∀ obj ∈ xs, ∃ i, perObjectCheck C opts i obj = .ok () := by
  intro xs
  induction xs with
  | nil =>
    intro i0 _ obj hobj
    simp at hobj
  | cons x rest ih =>
    intro i0 h obj hobj
    unfold objectsPhase at h
    split at h
    · simp at h
    case _ hx =>
      rcases List.mem_cons.mp hobj with hcase | hcase
      · exact ⟨i0, hcase ▸ hx⟩
      · exact ih (i0 + 1) h obj hcase

/-- If the loop body fails at index `d` with every earlier index passing, the
per-sample phase surfaces exactly that error. -/
theorem objectsPhase_error_at {Inst : Type} (C : ClassSpec Inst) (opts : TesterOptions) :
    ∀ (xs : List JSValue) (i0 d : Nat) (e : JSError),
      (∀ d2, d2 < d → perObjectCheck C opts (i0 + d2) (xs.getD d2 .null) = .ok ()) →
      d < xs.length →
      perObjectCheck C opts (i0 + d) (xs.getD d .null) = .error e →
      objectsPhase C opts i0 xs = .error e := by
  intro xs
  induction xs with
  | nil =>
    intro i0 d e _ hd
    simp at hd
  | cons x rest ih =>
    intro i0 d e hprev hd herr
    cases d with
    | zero =>
      simp only [Nat.add_zero, List.getD_cons_zero] at herr
      unfold objectsPhase
      rw [herr]
    | succ d =>
      have h0 : perObjectCheck C opts i0 x = .ok () := by
        simpa using hprev 0 (Nat.succ_pos d)
      unfold objectsPhase
      rw [h0]
      refine ih (i0 + 1) d e (fun d2 hd2 => ?_) (Nat.lt_of_succ_lt_succ hd) ?_
      · have h3 := hprev (d2 + 1) (Nat.succ_lt_succ hd2)
        have hidx : i0 + (d2 + 1) = i0 + 1 + d2 := by omega
        rw [hidx] at h3
        simpa [List.getD_cons_succ] using h3
      · have hidx : i0 + (d + 1) = i0 + 1 + d := by omega
        rw [hidx] at herr
        simpa [List.getD_cons_succ] using herr

/-- Success extraction for `checkerMain`. -/
theorem checkerMain_ok {Inst : Type} (C : ClassSpec Inst) (opts : TesterOptions)
    (x0 : JSValue) (rest out : List JSValue)
    (h : checkerMain C opts x0 rest = (.ok (), out)) :
    1 ≤ C.name.length ∧ C.hasFromJS = true ∧
    ∃ inst0 x0After,
      C.fromJS x0 opts.context = (.ok inst0, x0After) ∧
      instanceChecks C = .ok () ∧
      propertiesCheck C = .ok () ∧
      objectsPhase C opts 0 (x0After :: rest) = .ok () ∧
      crossPhase C opts.context (x0After :: rest) = (.ok (), out) := by
  unfold checkerMain at h
  split at h
  case isTrue => simp at h
  case isFalse hname =>
    split at h
    case isTrue => simp at h
    case isFalse hhas =>
      split at h
      · simp at h
      case _ inst0 x0After hfrom =>
        split at h
        · simp at h
        case _ hic =>
          split at h
          · simp at h
          case _ hpc =>
            split at h
            · simp at h
            case _ hop =>
              exact ⟨by omega, eq_true_of_not_eq_false hhas,
                inst0, x0After, hfrom, hic, hpc, hop, h⟩

/-- Success extraction for `testImmutableClass` on a non-empty array. -/
theorem testImmutableClass_ok {Inst : Type} (C : ClassSpec Inst) (opts : TesterOptions)
    (x0 : JSValue) (rest : List JSValue) (v : JSValue)
    (h : testImmutableClass C (.arr (x0 :: rest)) opts = (.ok (), v)) :
    C.isFn = true ∧ ∃ out, v = .arr out ∧ checkerMain C opts x0 rest = (.ok (), out) := by
  unfold testImmutableClass at h
  split at h
  case isTrue => simp at h
  case isFalse hfn =>
    simp only [] at h
    rcases hcm : checkerMain C opts x0 rest with ⟨r1, r2⟩
    rw [hcm] at h
    simp only [Prod.mk.injEq] at h
    obtain ⟨h1, h2⟩ := h
    exact ⟨eq_true_of_not_eq_false hfn, r2, h2.symm, by rw [h1]⟩

/-- Error lifting: when the phases before the per-sample loop pass and the
loop body first fails at relative index `d`, `checkerMain` returns exactly
that error, with the array contents as rewritten by the reference-instance
construction. -/
theorem checkerMain_error_in_object {Inst : Type} (C : ClassSpec Inst)
    (opts : TesterOptions) (x0 : JSValue) (rest : List JSValue) (x0After : JSValue)
    (inst0 : Inst) (d : Nat) (e : JSError)
    (hname : 1 ≤ C.name.length) (hhas : C.hasFromJS = true)
    (hfrom : C.fromJS x0 opts.context = (.ok inst0, x0After))
    (hic : instanceChecks C = .ok ()) (hpc : propertiesCheck C = .ok ())
    (hprev : ∀ d2, d2 < d → perObjectCheck C opts d2 ((x0After :: rest).getD d2 .null) = .ok ())
    (hd : d < (x0After :: rest).length)
    (herr : perObjectCheck C opts d ((x0After :: rest).getD d .null) = .error e) :
    checkerMain C opts x0 rest = (.error e, x0After :: rest) := by
  have hop : objectsPhase C opts 0 (x0After :: rest) = .error e :=
    objectsPhase_error_at C opts (x0After :: rest) 0 d e (by simpa using hprev) hd
      (by simpa using herr)
  unfold checkerMain
  rw [if_neg (by omega)]
  rw [if_neg (by simp [hhas])]
  simp only [hfrom, hic, hpc, hop]

/-- Error lifting to `testImmutableClass` itself. -/
theorem testImmutableClass_error_in_object {Inst : Type} (C : ClassSpec Inst)
    (opts : TesterOptions) (x0 : JSValue) (rest : List JSValue) (x0After : JSValue)
    (d : Nat) (e : JSError)
    (hreach : ReachesSample C opts x0 rest x0After d)
    (herr : perObjectCheck C opts d ((x0After :: rest).getD d .null) = .error e) :
    testImmutableClass C (.arr (x0 :: rest)) opts = (.error e, .arr (x0After :: rest)) := by
  obtain ⟨hfn, hname, hhas, ⟨inst0, hfrom⟩, hic, hpc, hd, hprev⟩ := hreach
  have hcm := checkerMain_error_in_object C opts x0 rest x0After inst0 d e
    hname hhas hfrom hic hpc hprev hd herr
  unfold testImmutableClass
  rw [if_neg (by simp [hfn])]
  simp only [hcm]

/-! ## Failure characterizations of the per-sample loop body -/

/-- The mutation check fails: when the post-call copy no longer deep-equals
the untouched copy, the body raises the input-modification message. -/
theorem perObjectCheck_error_modified {Inst : Type} (C : ClassSpec Inst)
    (opts : TesterOptions) (i : Nat) (obj copy : JSValue) (inst : Inst) (m : JSValue)
    (h1 : jsonNormalize obj = some copy)
    (h2 : C.fromJS copy opts.context = (.ok inst, m))
    (h3 : deepEq m copy = false) :
    perObjectCheck C opts i obj = .error (.assertion (modifiedInputMsg C.name m copy)) := by
  unfold perObjectCheck
  simp only [h1, h2]
  rw [if_pos h3]

/-- The fixed-point check fails: with every earlier assertion of the body
passing and `toJS()` not deep-equal to the sample, the body raises the
fixed-point message carrying the index tag and both values. -/
theorem perObjectCheck_error_fixed_point {Inst : Type} (C : ClassSpec Inst)
    (opts : TesterOptions) (i : Nat) (obj copy : JSValue) (inst : Inst) (m : JSValue)
    (h1 : jsonNormalize obj = some copy)
    (h2 : C.fromJS copy opts.context = (.ok inst, m))
    (h3 : deepEq m copy = true)
    (h4 : C.isInst inst = true)
    (h5 : isStr (C.instToString inst) = true)
    (h6 : C.equals inst (.val .null) = false)
    (h7 : C.equals inst (.val (.arr [])) = false)
    (h8 : deepEq (C.toJS inst) obj = false) :
    perObjectCheck C opts i obj =
      .error (.assertion (fixedPointMsg C.name i (C.toJS inst) obj)) := by
  unfold perObjectCheck
  simp only [h1, h2]
  rw [if_neg (by simp [h3]), if_neg (by simp [h4]), if_neg (by simp [h5]),
    if_neg (by simp [h6]), if_neg (by simp [h7]), if_pos h8]

/-- The `equals(null)` check fails. -/
theorem perObjectCheck_error_equals_null {Inst : Type} (C : ClassSpec Inst)
    (opts : TesterOptions) (i : Nat) (obj copy : JSValue) (inst : Inst) (m : JSValue)
    (h1 : jsonNormalize obj = some copy)
    (h2 : C.fromJS copy opts.context = (.ok inst, m))
    (h3 : deepEq m copy = true)
    (h4 : C.isInst inst = true)
    (h5 : isStr (C.instToString inst) = true)
    (h6 : C.equals inst (.val .null) = true) :
    perObjectCheck C opts i obj = .error (.assertion (equalsNullMsg C.name i)) := by
  unfold perObjectCheck
  simp only [h1, h2]
  rw [if_neg (by simp [h3]), if_neg (by simp [h4]), if_neg (by simp [h5]), if_pos h6]

/-- The `equals([])` check fails. -/
theorem perObjectCheck_error_equals_empty {Inst : Type} (C : ClassSpec Inst)
    (opts : TesterOptions) (i : Nat) (obj copy : JSValue) (inst : Inst) (m : JSValue)
    (h1 : jsonNormalize obj = some copy)
    (h2 : C.fromJS copy opts.context = (.ok inst, m))
    (h3 : deepEq m copy = true)
    (h4 : C.isInst inst = true)
    (h5 : isStr (C.instToString inst) = true)
    (h6 : C.equals inst (.val .null) = false)
    (h7 : C.equals inst (.val (.arr [])) = true) :
    perObjectCheck C opts i obj = .error (.assertion (equalsEmptyArrayMsg C.name i)) := by
  unfold perObjectCheck
  simp only [h1, h2]
  rw [if_neg (by simp [h3]), if_neg (by simp [h4]), if_neg (by simp [h5]),
    if_neg (by simp [h6]), if_pos h7]

/-- The `equals(valueOf())` check fails. -/
theorem perObjectCheck_error_equals_valueOf {Inst : Type} (C : ClassSpec Inst)
    (opts : TesterOptions) (i : Nat) (obj copy : JSValue) (inst : Inst) (m : JSValue)
    (h1 : jsonNormalize obj = some copy)
    (h2 : C.fromJS copy opts.context = (.ok inst, m))
    (h3 : deepEq m copy = true)
    (h4 : C.isInst inst = true)
    (h5 : isStr (C.instToString inst) = true)
    (h6 : C.equals inst (.val .null) = false)
    (h7 : C.equals inst (.val (.arr [])) = false)
    (h8 : deepEq (C.toJS inst) obj = true)
    (h9 : C.equals inst (.val (C.valueOf inst)) = true) :
    perObjectCheck C opts i obj = .error (.assertion (equalsValueOfMsg i)) := by
  unfold perObjectCheck
  simp only [h1, h2]
  rw [if_neg (by simp [h3]), if_neg (by simp [h4]), if_neg (by simp [h5]),
    if_neg (by simp [h6]), if_neg (by simp [h7]), if_neg (by simp [h8]), if_pos h9]

/-- The shallow-copy anti-duck-typing check fails. -/
theorem perObjectCheck_error_equals_lazy {Inst : Type} (C : ClassSpec Inst)
    (opts : TesterOptions) (i : Nat) (obj copy : JSValue) (inst : Inst) (m : JSValue)
    (h1 : jsonNormalize obj = some copy)
    (h2 : C.fromJS copy opts.context = (.ok inst, m))
    (h3 : deepEq m copy = true)
    (h4 : C.isInst inst = true)
    (h5 : isStr (C.instToString inst) = true)
    (h6 : C.equals inst (.val .null) = false)
    (h7 : C.equals inst (.val (.arr [])) = false)
    (h8 : deepEq (C.toJS inst) obj = true)
    (h9 : C.equals inst (.val (C.valueOf inst)) = false)
    (h10 : C.equals inst (.val (.obj (C.ownFields inst))) = true) :
    perObjectCheck C opts i obj = .error (.assertion (equalsLazyCopyMsg i)) := by
  unfold perObjectCheck
  simp only [h1, h2]
  rw [if_neg (by simp [h3]), if_neg (by simp [h4]), if_neg (by simp [h5]),
    if_neg (by simp [h6]), if_neg (by simp [h7]), if_neg (by simp [h8]),
    if_neg (by simp [h9]), if_pos h10]

/-- With `newThrows` set and direct construction succeeding, the body raises
the did-not-throw message. -/
theorem perObjectCheck_error_new_did_not_throw {Inst : Type} (C : ClassSpec Inst)
    (opts : TesterOptions) (i : Nat) (obj copy : JSValue) (inst inst2 : Inst) (m : JSValue)
    (h1 : jsonNormalize obj = some copy)
    (h2 : C.fromJS copy opts.context = (.ok inst, m))
    (h3 : deepEq m copy = true)
    (h4 : C.isInst inst = true)
    (h5 : isStr (C.instToString inst) = true)
    (h6 : C.equals inst (.val .null) = false)
    (h7 : C.equals inst (.val (.arr [])) = false)
    (h8 : deepEq (C.toJS inst) obj = true)
    (h9 : C.equals inst (.val (C.valueOf inst)) = false)
    (h10 : C.equals inst (.val (.obj (C.ownFields inst))) = false)
    (hnt : opts.newThrows = true)
    (hc : C.construct (C.valueOf inst) = .ok inst2) :
    perObjectCheck C opts i obj = .error (.assertion (newDidNotThrowMsg C.name i)) := by
  have hb : newThrowsCheck C opts.newThrows i inst (C.valueOf inst) =
      .error (.assertion (newDidNotThrowMsg C.name i)) := by
    unfold newThrowsCheck
    rw [if_pos hnt, hc]
  unfold perObjectCheck
  simp only [h1, h2]
  rw [if_neg (by simp [h3]), if_neg (by simp [h4]), if_neg (by simp [h5]),
    if_neg (by simp [h6]), if_neg (by simp [h7]), if_neg (by simp [h8]),
    if_neg (by simp [h9]), if_neg (by simp [h10])]
  simp only [hb]

/-- The fixed-point failure message contains the `[in object i]` tag and the
renderings of both the actual and the expected value. -/
theorem fixedPointMsg_parts (nm : String) (i : Nat) (a b : JSValue) :
    containsSubstring (fixedPointMsg nm i a b) (whereTag i) ∧
    containsSubstring (fixedPointMsg nm i a b) (inspectJS a) ∧
    containsSubstring (fixedPointMsg nm i a b) (inspectJS b) := by
  unfold fixedPointMsg deepEqualSuffix
  refine ⟨?_, ?_, ?_⟩
  · exact containsSubstring_append_right _ _ _
      (containsSubstring_append_left _ _ _ (containsSubstring_self _))
  · exact containsSubstring_append_left _ _ _
      (containsSubstring_append_right _ _ _
        (containsSubstring_append_right _ _ _
          (containsSubstring_append_left _ _ _ (containsSubstring_self _))))
  · exact containsSubstring_append_left _ _ _
      (containsSubstring_append_left _ _ _ (containsSubstring_self _))

/-! ## The specification claims -/

/-- C1: For every sample index `i`, `testImmutableClass` asserts the
fixed-point law.  First conjunct (law asserted): whenever the checker
succeeds, for every index `d` into the live sample array, `fromJS` applied to
the parsed copy of `objects[d]` (with the context) produced an instance whose
`toJS()` deep-equals `objects[d]`.  Second conjunct (violation): when the
checker reaches sample `d` and every assertion of the loop body before the
fixed-point check passes but `toJS()` is not deep-equal to the sample, the
checker raises exactly the fixed-point assertion message for index `d` built
from the actual and expected value.  Third conjunct: that message contains
the `[in object i]` tag and the renderings of both values. -/
theorem C1_fixed_point_law {Inst : Type} (C : ClassSpec Inst) (opts : TesterOptions) :
    (∀ (x0 : JSValue) (rest : List JSValue) (v : JSValue),
      testImmutableClass C (.arr (x0 :: rest)) opts = (.ok (), v) →
      ∃ inst0 x0After, C.fromJS x0 opts.context = (.ok inst0, x0After) ∧
        ∀ d, d < (x0After :: rest).length →
          ∃ copy inst m,
            jsonNormalize ((x0After :: rest).getD d .null) = some copy ∧
            C.fromJS copy opts.context = (.ok inst, m) ∧
            deepEq (C.toJS inst) ((x0After :: rest).getD d .null) = true) ∧
    (∀ (x0 : JSValue) (rest : List JSValue) (x0After : JSValue) (d : Nat)
        (copy : JSValue) (inst : Inst) (m : JSValue),
      ReachesSample C opts x0 rest x0After d →
      jsonNormalize ((x0After :: rest).getD d .null) = some copy →
      C.fromJS copy opts.context = (.ok inst, m) →
      deepEq m copy = true →
      C.isInst inst = true →
      isStr (C.instToString inst) = true →
      C.equals inst (.val .null) = false →
      C.equals inst (.val (.arr [])) = false →
      deepEq (C.toJS inst) ((x0After :: rest).getD d .null) = false →
      testImmutableClass C (.arr (x0 :: rest)) opts =
        (.error (.assertion
          (fixedPointMsg C.name d (C.toJS inst) ((x0After :: rest).getD d .null))),
         .arr (x0After :: rest))) ∧
    (∀ (nm : String) (i : Nat) (a b : JSValue),
      containsSubstring (fixedPointMsg nm i a b) (whereTag i) ∧
      containsSubstring (fixedPointMsg nm i a b) (inspectJS a) ∧
      containsSubstring (fixedPointMsg nm i a b) (inspectJS b)) := by
  refine ⟨?_, ?_, fixedPointMsg_parts⟩
  · intro x0 rest v h
    obtain ⟨_, out, _, hcm⟩ := testImmutableClass_ok C opts x0 rest v h
    obtain ⟨_, _, inst0, x0After, hfrom, _, _, hop, _⟩ :=
      checkerMain_ok C opts x0 rest out hcm
    refine ⟨inst0, x0After, hfrom, fun d hd => ?_⟩
    have hpo := objectsPhase_ok_at C opts (x0After :: rest) 0 d hop hd
    rw [Nat.zero_add] at hpo
    obtain ⟨copy, inst, m, hnorm, hfromc, _, _, _, _, _, hfix, _⟩ :=
      perObjectCheck_ok C opts d ((x0After :: rest).getD d .null) hpo
    exact ⟨copy, inst, m, hnorm, hfromc, hfix⟩
  · intro x0 rest x0After d copy inst m hreach h1 h2 h3 h4 h5 h6 h7 h8
    exact testImmutableClass_error_in_object C opts x0 rest x0After d _ hreach
      (perObjectCheck_error_fixed_point C opts d _ copy inst m h1 h2 h3 h4 h5 h6 h7 h8)

/-- Witness for C1: the `Animal` fixture with samples
`["Koala","Snake","Dog","#Cat"]` violates the fixed-point law at index 3 and
the checker raises exactly the message the mocha suite pins down. -/
theorem C1_fixed_point_law_witness :
    testImmutableClass AnimalSpec
      (.arr [.str "Koala", .str "Snake", .str "Dog", .str "#Cat"]) {} =
    (.error (.assertion
      (fixedPointMsg "Animal" 3 (.str "Cat") (.str "#Cat"))),
     .arr [.str "Koala", .str "Snake", .str "Dog", .str "#Cat"]) := by
  have hreach : ReachesSample AnimalSpec {}
      (.str "Koala") [.str "Snake", .str "Dog", .str "#Cat"] (.str "Koala") 3 := by
    refine ⟨rfl, by decide, rfl, ⟨.str "Koala", rfl⟩, rfl, rfl, by decide, ?_⟩
    intro d2 hd2
    interval_cases d2 <;> rfl
  exact (C1_fixed_point_law AnimalSpec {}).2.1
    (.str "Koala") [.str "Snake", .str "Dog", .str "#Cat"] (.str "Koala") 3
    (.str "#Cat") (.str "Cat") (.str "#Cat") hreach rfl rfl rfl rfl rfl rfl rfl rfl

/-- C3: Per-sample mutation check.  First conjunct: whenever the checker
succeeds then for every sample the loop body obtained the JSON-text parse of
the sample, called `fromJS` on that copy (with the context) and the post-call
value of the copy still deep-equals the untouched second parse (both parses
of the same text yield the same plain value in the model).  Second conjunct:
if the checker reaches sample `d` and `fromJS` mutated its argument in a
structurally observable way, the checker raises the input-modification
error. -/
theorem C3_fromJS_does_not_mutate {Inst : Type} (C : ClassSpec Inst) (opts : TesterOptions) :
    (∀ (x0 : JSValue) (rest : List JSValue) (v : JSValue),
      testImmutableClass C (.arr (x0 :: rest)) opts = (.ok (), v) →
      ∃ inst0 x0After, C.fromJS x0 opts.context = (.ok inst0, x0After) ∧
        ∀ d, d < (x0After :: rest).length →
          ∃ copy inst m,
            jsonNormalize ((x0After :: rest).getD d .null) = some copy ∧
            C.fromJS copy opts.context = (.ok inst, m) ∧
            deepEq m copy = true) ∧
    (∀ (x0 : JSValue) (rest : List JSValue) (x0After : JSValue) (d : Nat)
        (copy : JSValue) (inst : Inst) (m : JSValue),
      ReachesSample C opts x0 rest x0After d →
      jsonNormalize ((x0After :: rest).getD d .null) = some copy →
      C.fromJS copy opts.context = (.ok inst, m) →
      deepEq m copy = false →
      testImmutableClass C (.arr (x0 :: rest)) opts =
        (.error (.assertion (modifiedInputMsg C.name m copy)), .arr (x0After :: rest))) := by
  constructor
  · intro x0 rest v h
    obtain ⟨_, out, _, hcm⟩ := testImmutableClass_ok C opts x0 rest v h
    obtain ⟨_, _, inst0, x0After, hfrom, _, _, hop, _⟩ :=
      checkerMain_ok C opts x0 rest out hcm
    refine ⟨inst0, x0After, hfrom, fun d hd => ?_⟩
    have hpo := objectsPhase_ok_at C opts (x0After :: rest) 0 d hop hd
    rw [Nat.zero_add] at hpo
    obtain ⟨copy, inst, m, hnorm, hfromc, hnomut, _⟩ :=
      perObjectCheck_ok C opts d ((x0After :: rest).getD d .null) hpo
    exact ⟨copy, inst, m, hnorm, hfromc, hnomut⟩
  · intro x0 rest x0After d copy inst m hreach h1 h2 h3
    exact testImmutableClass_error_in_object C opts x0 rest x0After d _ hreach
      (perObjectCheck_error_modified C opts d _ copy inst m h1 h2 h3)

/-- Witness for C3: a class whose `fromJS` appends a bang to its string
argument in place is caught by the mutation check (note that the reference
construction of phase A has already rewritten `objects[0]` to `"Koala!"`). -/
theorem C3_fromJS_does_not_mutate_witness :
    testImmutableClass AnimalMutatesInput (.arr [.str "Koala"]) {} =
    (.error (.assertion
      (modifiedInputMsg "AnimalMutatesInput" (.str "Koala!!") (.str "Koala!"))),
     .arr [.str "Koala!"]) := by
  have hreach : ReachesSample AnimalMutatesInput {} (.str "Koala") [] (.str "Koala!") 0 := by
    refine ⟨rfl, by decide, rfl, ⟨.str "Koala", rfl⟩, rfl, rfl, by decide, ?_⟩
    intro d2 hd2
    omega
  exact (C3_fromJS_does_not_mutate AnimalMutatesInput {}).2
    (.str "Koala") [] (.str "Koala!") 0 (.str "Koala!") (.str "Koala!") (.str "Koala!!")
    hreach rfl rfl rfl

/-- C5: Anti-duck-typing.  First conjunct: whenever the checker
succeeds, every constructed instance satisfied all four checks:
`equals(null)`, `equals([])`, `equals(valueOf())` and `equals`(shallow own
field copy) are all `false`.  The remaining conjuncts: a `true` result of any
of the four (with the loop body's earlier assertions passing) makes the
checker raise the corresponding assertion. -/
theorem C5_anti_duck_typing {Inst : Type} (C : ClassSpec Inst) (opts : TesterOptions) :
    (∀ (x0 : JSValue) (rest : List JSValue) (v : JSValue),
      testImmutableClass C (.arr (x0 :: rest)) opts = (.ok (), v) →
      ∃ inst0 x0After, C.fromJS x0 opts.context = (.ok inst0, x0After) ∧
        ∀ d, d < (x0After :: rest).length →
          ∃ copy inst m,
            jsonNormalize ((x0After :: rest).getD d .null) = some copy ∧
            C.fromJS copy opts.context = (.ok inst, m) ∧
            C.equals inst (.val .null) = false ∧
            C.equals inst (.val (.arr [])) = false ∧
            C.equals inst (.val (C.valueOf inst)) = false ∧
            C.equals inst (.val (.obj (C.ownFields inst))) = false) ∧
    (∀ (x0 : JSValue) (rest : List JSValue) (x0After : JSValue) (d : Nat)
        (copy : JSValue) (inst : Inst) (m : JSValue),
      ReachesSample C opts x0 rest x0After d →
      jsonNormalize ((x0After :: rest).getD d .null) = some copy →
      C.fromJS copy opts.context = (.ok inst, m) →
      deepEq m copy = true → C.isInst inst = true → isStr (C.instToString inst) = true →
      C.equals inst (.val .null) = true →
      testImmutableClass C (.arr (x0 :: rest)) opts =
        (.error (.assertion (equalsNullMsg C.name d)), .arr (x0After :: rest))) ∧
    (∀ (x0 : JSValue) (rest : List JSValue) (x0After : JSValue) (d : Nat)
        (copy : JSValue) (inst : Inst) (m : JSValue),
      ReachesSample C opts x0 rest x0After d →
      jsonNormalize ((x0After :: rest).getD d .null) = some copy →
      C.fromJS copy opts.context = (.ok inst, m) →
      deepEq m copy = true → C.isInst inst = true → isStr (C.instToString inst) = true →
      C.equals inst (.val .null) = false →
      C.equals inst (.val (.arr [])) = true →
      testImmutableClass C (.arr (x0 :: rest)) opts =
        (.error (.assertion (equalsEmptyArrayMsg C.name d)), .arr (x0After :: rest))) ∧
    (∀ (x0 : JSValue) (rest : List JSValue) (x0After : JSValue) (d : Nat)
        (copy : JSValue) (inst : Inst) (m : JSValue),
      ReachesSample C opts x0 rest x0After d →
      jsonNormalize ((x0After :: rest).getD d .null) = some copy →
      C.fromJS copy opts.context = (.ok inst, m) →
      deepEq m copy = true → C.isInst inst = true → isStr (C.instToString inst) = true →
      C.equals inst (.val .null) = false →
      C.equals inst (.val (.arr [])) = false →
      deepEq (C.toJS inst) ((x0After :: rest).getD d .null) = true →
      C.equals inst (.val (C.valueOf inst)) = true →
      testImmutableClass C (.arr (x0 :: rest)) opts =
        (.error (.assertion (equalsValueOfMsg d)), .arr (x0After :: rest))) ∧
    (∀ (x0 : JSValue) (rest : List JSValue) (x0After : JSValue) (d : Nat)
        (copy : JSValue) (inst : Inst) (m : JSValue),
      ReachesSample C opts x0 rest x0After d →
      jsonNormalize ((x0After :: rest).getD d .null) = some copy →
      C.fromJS copy opts.context = (.ok inst, m) →
      deepEq m copy = true → C.isInst inst = true → isStr (C.instToString inst) = true →
      C.equals inst (.val .null) = false →
      C.equals inst (.val (.arr [])) = false →
      deepEq (C.toJS inst) ((x0After :: rest).getD d .null) = true →
      C.equals inst (.val (C.valueOf inst)) = false →
      C.equals inst (.val (.obj (C.ownFields inst))) = true →
      testImmutableClass C (.arr (x0 :: rest)) opts =
        (.error (.assertion (equalsLazyCopyMsg d)), .arr (x0After :: rest))) := by
  refine ⟨?_, ?_, ?_, ?_, ?_⟩
  · intro x0 rest v h
    obtain ⟨_, out, _, hcm⟩ := testImmutableClass_ok C opts x0 rest v h
    obtain ⟨_, _, inst0, x0After, hfrom, _, _, hop, _⟩ :=
      checkerMain_ok C opts x0 rest out hcm
    refine ⟨inst0, x0After, hfrom, fun d hd => ?_⟩
    have hpo := objectsPhase_ok_at C opts (x0After :: rest) 0 d hop hd
    rw [Nat.zero_add] at hpo
    obtain ⟨copy, inst, m, hnorm, hfromc, _, _, _, hnull, hempty, _, hvalof, hlazy, _⟩ :=
      perObjectCheck_ok C opts d ((x0After :: rest).getD d .null) hpo
    exact ⟨copy, inst, m, hnorm, hfromc, hnull, hempty, hvalof, hlazy⟩
  · intro x0 rest x0After d copy inst m hreach h1 h2 h3 h4 h5 h6
    exact testImmutableClass_error_in_object C opts x0 rest x0After d _ hreach
      (perObjectCheck_error_equals_null C opts d _ copy inst m h1 h2 h3 h4 h5 h6)
  · intro x0 rest x0After d copy inst m hreach h1 h2 h3 h4 h5 h6 h7
    exact testImmutableClass_error_in_object C opts x0 rest x0After d _ hreach
      (perObjectCheck_error_equals_empty C opts d _ copy inst m h1 h2 h3 h4 h5 h6 h7)
  · intro x0 rest x0After d copy inst m hreach h1 h2 h3 h4 h5 h6 h7 h8 h9
    exact testImmutableClass_error_in_object C opts x0 rest x0After d _ hreach
      (perObjectCheck_error_equals_valueOf C opts d _ copy inst m h1 h2 h3 h4 h5 h6 h7 h8 h9)
  · intro x0 rest x0After d copy inst m hreach h1 h2 h3 h4 h5 h6 h7 h8 h9 h10
    exact testImmutableClass_error_in_object C opts x0 rest x0After d _ hreach
      (perObjectCheck_error_equals_lazy C opts d _ copy inst m h1 h2 h3 h4 h5 h6 h7 h8 h9 h10)

/-- Witness for C5: a class whose `equals` wrongly accepts `null` is caught
with the `equals(null)` assertion at sample index 0. -/
theorem C5_anti_duck_typing_witness :
    testImmutableClass AnimalEqualsNull (.arr [.str "Koala"]) {} =
    (.error (.assertion (equalsNullMsg "AnimalEqualsNull" 0)), .arr [.str "Koala"]) := by
  have hreach : ReachesSample AnimalEqualsNull {} (.str "Koala") [] (.str "Koala") 0 := by
    refine ⟨rfl, by decide, rfl, ⟨.str "Koala", rfl⟩, rfl, rfl, by decide, ?_⟩
    intro d2 hd2
    omega
  exact (C5_anti_duck_typing AnimalEqualsNull {}).2.1
    (.str "Koala") [] (.str "Koala") 0 (.str "Koala") (.str "Koala") (.str "Koala")
    hreach rfl rfl rfl rfl rfl rfl

/-- C4: Direct construction from `valueOf()` under `newThrows`.  First
conjunct: whenever the checker succeeds then for every sample, if
`newThrows` was set, direct construction from the instance's `valueOf()`
result did not succeed (it threw), and if it was unset, direct construction
succeeded with a result `equals` the original whose `toJS()` deep-equals the
original's `toJS()`.  Second conjunct: with `newThrows` set, if the loop
body's earlier assertions pass and direct construction does succeed, the
checker raises the did-not-throw assertion. -/
theorem C4_newThrows_round_trip {Inst : Type} (C : ClassSpec Inst) (opts : TesterOptions) :
    (∀ (x0 : JSValue) (rest : List JSValue) (v : JSValue),
      testImmutableClass C (.arr (x0 :: rest)) opts = (.ok (), v) →
      ∃ inst0 x0After, C.fromJS x0 opts.context = (.ok inst0, x0After) ∧
        ∀ d, d < (x0After :: rest).length →
          ∃ copy inst m,
            jsonNormalize ((x0After :: rest).getD d .null) = some copy ∧
            C.fromJS copy opts.context = (.ok inst, m) ∧
            (opts.newThrows = true → ∀ inst2, C.construct (C.valueOf inst) ≠ .ok inst2) ∧
            (opts.newThrows = false → ∃ ivc, C.construct (C.valueOf inst) = .ok ivc ∧
              C.equals inst (.inst ivc) = true ∧
              deepEq (C.toJS ivc) (C.toJS inst) = true)) ∧
    (∀ (x0 : JSValue) (rest : List JSValue) (x0After : JSValue) (d : Nat)
        (copy : JSValue) (inst inst2 : Inst) (m : JSValue),
      ReachesSample C opts x0 rest x0After d →
      jsonNormalize ((x0After :: rest).getD d .null) = some copy →
      C.fromJS copy opts.context = (.ok inst, m) →
      deepEq m copy = true → C.isInst inst = true → isStr (C.instToString inst) = true →
      C.equals inst (.val .null) = false →
      C.equals inst (.val (.arr [])) = false →
      deepEq (C.toJS inst) ((x0After :: rest).getD d .null) = true →
      C.equals inst (.val (C.valueOf inst)) = false →
      C.equals inst (.val (.obj (C.ownFields inst))) = false →
      opts.newThrows = true →
      C.construct (C.valueOf inst) = .ok inst2 →
      testImmutableClass C (.arr (x0 :: rest)) opts =
        (.error (.assertion (newDidNotThrowMsg C.name d)), .arr (x0After :: rest))) := by
  constructor
  · intro x0 rest v h
    obtain ⟨_, out, _, hcm⟩ := testImmutableClass_ok C opts x0 rest v h
    obtain ⟨_, _, inst0, x0After, hfrom, _, _, hop, _⟩ :=
      checkerMain_ok C opts x0 rest out hcm
    refine ⟨inst0, x0After, hfrom, fun d hd => ?_⟩
    have hpo := objectsPhase_ok_at C opts (x0After :: rest) 0 d hop hd
    rw [Nat.zero_add] at hpo
    obtain ⟨copy, inst, m, hnorm, hfromc, _, _, _, _, _, _, _, _, hnt, _⟩ :=
      perObjectCheck_ok C opts d ((x0After :: rest).getD d .null) hpo
    obtain ⟨hthrows, hplain⟩ :=
      newThrowsCheck_ok C opts.newThrows d inst (C.valueOf inst) hnt
    exact ⟨copy, inst, m, hnorm, hfromc, hthrows, hplain⟩
  · intro x0 rest x0After d copy inst inst2 m hreach h1 h2 h3 h4 h5 h6 h7 h8 h9 h10 hnt hc
    exact testImmutableClass_error_in_object C opts x0 rest x0After d _ hreach
      (perObjectCheck_error_new_did_not_throw C opts d _ copy inst inst2 m
        h1 h2 h3 h4 h5 h6 h7 h8 h9 h10 hnt hc)

/-- Witness for C4: `Animal` (whose constructor does not throw) run with
`newThrows` set fails with the did-not-throw assertion at sample 0. -/
theorem C4_newThrows_round_trip_witness :
    testImmutableClass AnimalSpec (.arr [.str "Koala"]) { newThrows := true } =
      (.error (.assertion (newDidNotThrowMsg "Animal" 0)), .arr [.str "Koala"]) := by
  have hreach : ReachesSample AnimalSpec { newThrows := true }
      (.str "Koala") [] (.str "Koala") 0 := by
    refine ⟨rfl, by decide, rfl, ⟨.str "Koala", rfl⟩, rfl, rfl, by decide, ?_⟩
    intro d2 hd2
    omega
  exact (C4_newThrows_round_trip AnimalSpec { newThrows := true }).2
    (.str "Koala") [] (.str "Koala") 0 (.str "Koala") (.str "Koala") (.str "Koala")
    (.str "Koala") hreach rfl rfl rfl rfl rfl rfl rfl rfl rfl rfl rfl rfl

/-- C6: Preconditions, each a distinct failure, in order, all before any
`fromJS` call or per-sample check: a non-function `ClassFn` raises the
constructor type error (whatever the other fields are); with a function
`ClassFn`, a non-array or empty `objects` raises the array type error; with
both in order, an empty class name raises the name error.  Every conclusion
holds for an arbitrary `ClassSpec` with the stated fields and returns the
`objects` argument unchanged, so none of the candidate's operations (in
particular `fromJS`) has been invoked. -/
theorem C6_preconditions {Inst : Type} (C : ClassSpec Inst) (objects : JSValue)
    (opts : TesterOptions) :
    (C.isFn = false →
      testImmutableClass C objects opts =
        (.error (.typeError "ClassFn must be a constructor function"), objects)) ∧
    (C.isFn = true → (∀ (x0 : JSValue) (rest : List JSValue), objects ≠ .arr (x0 :: rest)) →
      testImmutableClass C objects opts =
        (.error (.typeError "objects must be a non-empty array of js to test"), objects)) ∧
    (C.isFn = true → C.name.length < 1 →
      ∀ (x0 : JSValue) (rest : List JSValue), objects = .arr (x0 :: rest) →
      testImmutableClass C objects opts =
        (.error (.error "Class must have a name of at least 1 letter"), objects)) := by
  refine ⟨?_, ?_, ?_⟩
  · intro hfn
    unfold testImmutableClass
    rw [if_pos hfn]
  · intro hfn hnotarr
    unfold testImmutableClass
    rw [if_neg (by simp [hfn])]
    match objects, hnotarr with
    | .undefined, _ => rfl
    | .null, _ => rfl
    | .bool b, _ => rfl
    | .num n, _ => rfl
    | .str s, _ => rfl
    | .arr [], _ => rfl
    | .arr (x0 :: rest), hna => exact absurd rfl (hna x0 rest)
    | .obj fs, _ => rfl
  · intro hfn hname x0 rest hobj
    subst hobj
    unfold testImmutableClass checkerMain
    rw [if_neg (by simp [hfn])]
    simp only [if_pos hname]

/-- Witness for C6: the three precondition failures on concrete inputs — a
non-function candidate, a non-array `objects` value, and an anonymous
class. -/
theorem C6_preconditions_witness :
    testImmutableClass AnimalNotAFunction (.arr [.str "Koala"]) {} =
      (.error (.typeError "ClassFn must be a constructor function"), .arr [.str "Koala"]) ∧
    testImmutableClass AnimalSpec (.num 5) {} =
      (.error (.typeError "objects must be a non-empty array of js to test"), .num 5) ∧
    testImmutableClass AnimalAnonymous (.arr [.str "Koala"]) {} =
      (.error (.error "Class must have a name of at least 1 letter"), .arr [.str "Koala"]) := by
  refine ⟨?_, ?_, ?_⟩
  · exact (C6_preconditions AnimalNotAFunction (.arr [.str "Koala"]) {}).1 rfl
  · exact (C6_preconditions AnimalSpec (.num 5) {}).2.1 rfl (by intro x0 rest h; cases h)
  · exact (C6_preconditions AnimalAnonymous (.arr [.str "Koala"]) {}).2.2 rfl (by decide)
      (.str "Koala") [] rfl

/-- The key loop of the PROPERTIES check passes iff every key is recognized
and (per visited key) the descriptor's `name` is a string. -/
theorem checkPropertyKeys_ok_iff (p : JSValue) : ∀ ks : List String,
    checkPropertyKeys p ks = .ok () ↔
      ∀ k ∈ ks, PROPERTY_KEYS.contains k = true ∧ isStr (jsGet p "name") = true := by
  intro ks
  induction ks with
  | nil => simp [checkPropertyKeys]
  | cons k ks ih =>
    constructor
    · intro h
      unfold checkPropertyKeys at h
      split at h
      · simp at h
      case isFalse h1 =>
        split at h
        · simp at h
        case isFalse h2 =>
          intro k2 hk2
          rcases List.mem_cons.mp hk2 with rfl | hk2
          · exact ⟨eq_true_of_not_eq_false h1, eq_true_of_not_eq_false h2⟩
          · exact (ih.mp h) k2 hk2
    · intro h
      have hk := h k (List.mem_cons_self k ks)
      unfold checkPropertyKeys
      rw [if_neg (by rw [hk.1]; simp), if_neg (by rw [hk.2]; simp)]
      exact ih.mpr (fun k2 hk2 => h k2 (List.mem_cons_of_mem k hk2))

/-- One descriptor passes iff it is not `null`/`undefined` and its key loop
passes. -/
theorem checkProperty_ok_iff (p : JSValue) :
    checkProperty p = .ok () ↔
      (p ≠ .null ∧ p ≠ .undefined) ∧
      ∀ k ∈ jsKeys p, PROPERTY_KEYS.contains k = true ∧ isStr (jsGet p "name") = true := by
  cases p <;> simp [checkProperty, checkPropertyKeys_ok_iff]

/-- The descriptor loop passes iff every descriptor passes. -/
theorem checkProperties_ok_iff : ∀ ps : List JSValue,
    checkProperties ps = .ok () ↔ ∀ p ∈ ps, checkProperty p = .ok () := by
  intro ps
  induction ps with
  | nil => simp [checkProperties]
  | cons p ps ih =>
    constructor
    · intro h
      unfold checkProperties at h
      split at h
      · simp at h
      case _ hp =>
        intro q hq
        rcases List.mem_cons.mp hq with rfl | hq
        · exact hp
        · exact ih.mp h q hq
    · intro h
      unfold checkProperties
      have hp := h p (List.mem_cons_self p ps)
      simp only [hp]
      exact ih.mpr (fun q hq => h q (List.mem_cons_of_mem p hq))

/-- C8 (amended): The PROPERTIES phase.  First conjunct: a truthy
non-array `PROPERTIES` fails the is-an-array assertion.  Second conjunct: for
an array `PROPERTIES`, the phase passes exactly when every descriptor is a
keyed value none of whose keys is unrecognized and — **for every key the
descriptor actually has** — whose `name` field is a string.  The `name` check
runs once per present key, so a descriptor with no enumerable keys at all
(for example `{}`) passes vacuously even though it lacks a text `name`;
the original claim's "a descriptor lacking a text name fails this phase" is
therefore corrected to descriptors having at least one key. -/
theorem C8_properties_check {Inst : Type} (C : ClassSpec Inst) :
    (∀ pv, C.properties = some pv → jsTruthy pv = true →
      (∀ ps, pv ≠ .arr ps) →
      propertiesCheck C = .error (.assertion
        ("PROPERTIES should be an array: expected " ++ inspectJS pv ++ " to be an array"))) ∧
    (∀ ps, C.properties = some (.arr ps) →
      (propertiesCheck C = .ok () ↔
        ∀ p ∈ ps, (p ≠ .null ∧ p ≠ .undefined) ∧
          ∀ k ∈ jsKeys p, PROPERTY_KEYS.contains k = true ∧
            isStr (jsGet p "name") = true)) := by
  constructor
  · intro pv hprop htruthy hna
    unfold propertiesCheck
    simp only [hprop]
    rw [if_neg (by simp [htruthy])]
  · intro ps hprop
    unfold propertiesCheck
    simp only [hprop]
    rw [if_neg (by simp [jsTruthy])]
    rw [checkProperties_ok_iff]
    simp only [checkProperty_ok_iff]

/-- Counterexample to C8 as stated: a candidate whose PROPERTIES list holds
the empty-object descriptor — which certainly lacks a text `name` — passes
the PROPERTIES phase and the entire checker. -/
theorem C8_properties_check_counterexample :
    propertiesCheck AnimalEmptyDescriptor = .ok () ∧
    isStr (jsGet (.obj []) "name") = false ∧
    testImmutableClass AnimalEmptyDescriptor (.arr [.str "Koala"]) {} =
      (.ok (), .arr [.str "Koala"]) :=
  ⟨rfl, rfl, rfl⟩

/-- Witness for C8 (amended): a descriptor that has a key but no `name`
fails the phase, and a well-formed descriptor list passes it. -/
theorem C8_properties_check_witness :
    propertiesCheck AnimalNamelessProps ≠ .ok () ∧
    propertiesCheck AnimalGoodProps = .ok () := by
  constructor
  · intro h
    have hiff := (C8_properties_check AnimalNamelessProps).2
      [.obj [("defaultValue", .num 3)]] rfl
    have hall := hiff.mp h
    have hp := hall (.obj [("defaultValue", .num 3)]) (by simp)
    have hk := hp.2 "defaultValue" (by simp [jsKeys])
    have : isStr (jsGet (.obj [("defaultValue", .num 3)]) "name") = false := rfl
    rw [hk.2] at this
    cases this
  · refine ((C8_properties_check AnimalGoodProps).2
      [.obj [("name", .str "name")]] rfl).mpr ?_
    intro p hp
    rw [List.mem_singleton] at hp
    subst hp
    refine ⟨⟨by simp, by simp⟩, ?_⟩
    intro k hk
    rw [show jsKeys (.obj [("name", .str "name")]) = ["name"] from rfl,
      List.mem_singleton] at hk
    subst hk
    exact ⟨rfl, rfl⟩

/-- C9 (amended): In the per-sample phase the instance under test is
built from the JSON round-trip copy of the sample while the fixed-point
assertion compares its `toJS()` against the sample itself (first conjunct).
Consequently, **for classes whose `fromJS`/`toJS` composition is the
identity**, the per-sample checks can only pass on samples that are
deep-equal invariant under the JSON text round trip (second conjunct).  The
accompanying counterexample shows the original unconditional "only …
invariant" consequence is false: a class may denormalize and pass on a
non-invariant sample. -/
theorem C9_round_trip_invariance {Inst : Type} (C : ClassSpec Inst) (opts : TesterOptions) :
    (∀ (i0 : Nat) (xs : List JSValue), objectsPhase C opts i0 xs = .ok () →
      ∀ obj ∈ xs, ∃ copy inst m,
        jsonNormalize obj = some copy ∧
        C.fromJS copy opts.context = (.ok inst, m) ∧
        deepEq (C.toJS inst) obj = true) ∧
    ((∀ v inst m, C.fromJS v opts.context = (.ok inst, m) → C.toJS inst = v) →
      ∀ (i0 : Nat) (xs : List JSValue), objectsPhase C opts i0 xs = .ok () →
      ∀ obj ∈ xs, ∃ copy, jsonNormalize obj = some copy ∧ deepEq copy obj = true) := by
  have hmain : ∀ (i0 : Nat) (xs : List JSValue), objectsPhase C opts i0 xs = .ok () →
      ∀ obj ∈ xs, ∃ copy inst m,
        jsonNormalize obj = some copy ∧
        C.fromJS copy opts.context = (.ok inst, m) ∧
        deepEq (C.toJS inst) obj = true := by
    intro i0 xs h obj hobj
    obtain ⟨i, hpo⟩ := objectsPhase_ok_mem C opts xs i0 h obj hobj
    obtain ⟨copy, inst, m, hnorm, hfromc, _, _, _, _, _, hfix, _⟩ :=
      perObjectCheck_ok C opts i obj hpo
    exact ⟨copy, inst, m, hnorm, hfromc, hfix⟩
  refine ⟨hmain, ?_⟩
  intro hideal i0 xs h obj hobj
  obtain ⟨copy, inst, m, hnorm, hfromc, hfix⟩ := hmain i0 xs h obj hobj
  refine ⟨copy, hnorm, ?_⟩
  rw [← hideal copy inst m hfromc]
  exact hfix

/-- Counterexample to C9 as stated: `MutAnimalSpec` passes the whole
per-sample phase on the sample `[undefined]`, which is not invariant under a
JSON text round trip (it parses back as `[null]`). -/
theorem C9_round_trip_invariance_counterexample :
    objectsPhase MutAnimalSpec {} 0 [.str "a", .arr [.undefined]] = .ok () ∧
    jsonNormalize (.arr [.undefined]) = some (.arr [.null]) ∧
    deepEq (.arr [.null]) (.arr [.undefined]) = false :=
  ⟨rfl, rfl, rfl⟩

/-- Witness for C9 (amended), on the identity-style class `AnimalId`. -/
theorem C9_round_trip_invariance_witness :
    jsonNormalize (.str "Koala") = some (.str "Koala") ∧
    deepEq (.str "Koala") (.str "Koala") = true := by
  have hideal : ∀ v inst m, AnimalId.fromJS v none = (.ok inst, m) →
      AnimalId.toJS inst = v := by
    intro v inst m h
    cases v <;> simp [AnimalId, AnimalSpec] at h
    rw [← h.1]
    rfl
  have happ := (C9_round_trip_invariance AnimalId {}).2 hideal 0 [.str "Koala"] rfl
    (.str "Koala") (List.mem_singleton.mpr rfl)
  obtain ⟨copy, h1, h2⟩ := happ
  have hc : copy = .str "Koala" := by
    rw [show jsonNormalize (.str "Koala") = some (.str "Koala") from rfl] at h1
    exact (Option.some.inj h1).symm
  subst hc
  exact ⟨h1, h2⟩

/-- C10: In the cross-sample phase `fromJS` receives the live array
elements themselves (no protective copies): a class whose `fromJS`
normalizes its argument in place passes the entire checker while the
caller's samples array ends up rewritten — the run succeeds, the final array
contents differ from the initial ones, and it is the cross-sample phase that
performs the rewrite.  (The per-sample phase, by construction, only ever
hands `fromJS` freshly parsed copies — see `perObjectCheck` — and returns no
array state at all.) -/
theorem C10_cross_phase_mutates_samples :
    testImmutableClass MutAnimalSpec (.arr [.str "a", .arr [.undefined]]) {} =
      (.ok (), .arr [.str "a", .arr [.null]]) ∧
    (crossPhase MutAnimalSpec none [.str "a", .arr [.undefined]]).1 = .ok () ∧
    (crossPhase MutAnimalSpec none [.str "a", .arr [.undefined]]).2 = [.str "a", .arr [.null]] ∧
    JSValue.arr [.null] ≠ JSValue.arr [.undefined] :=
  ⟨rfl, rfl, rfl, by simp⟩

/-- Full characterization of the inner cross-sample loop for a non-mutating
class: the array is left unchanged; the loop succeeds exactly when every
index in its range yields an instance whose `equals` against `objJ` is right;
and an error is either a propagated `fromJS` throw or the cross-equality
assertion at the offending pair. -/
theorem crossInner_spec {Inst : Type} (C : ClassSpec Inst) (ctx : Option JSValue)
    (hnm : NonMutating C) (objJ : Inst) (j : Nat) :
    ∀ (count k : Nat) (xs : List JSValue),
      (crossInner C ctx objJ j k count xs).2 = xs ∧
      ((crossInner C ctx objJ j k count xs).1 = .ok () ↔
        ∀ k2, k ≤ k2 → k2 < k + count →
          ∃ objK m, C.fromJS (xs.getD k2 .null) ctx = (.ok objK, m) ∧
            C.equals objJ (.inst objK) = decide (j = k2)) ∧
      (∀ e, (crossInner C ctx objJ j k count xs).1 = .error e →
        (∃ k2 em m, k ≤ k2 ∧ k2 < k + count ∧
          C.fromJS (xs.getD k2 .null) ctx = (.error em, m) ∧ e = em) ∨
        (∃ k2 objK m, k ≤ k2 ∧ k2 < k + count ∧
          C.fromJS (xs.getD k2 .null) ctx = (.ok objK, m) ∧
          C.equals objJ (.inst objK) ≠ decide (j = k2) ∧
          e = .assertion (crossEqualityMsg j k2 (C.equals objJ (.inst objK))))) := by
  intro count
  induction count with
  | zero =>
    intro k xs
    refine ⟨rfl, ⟨fun _ k2 hk1 hk2 => absurd hk2 (by omega), fun _ => rfl⟩, ?_⟩
    intro e he
    simp [crossInner] at he
  | succ count ih =>
    intro k xs
    have hfst := hnm (xs.getD k .null) ctx
    rcases hf : C.fromJS (xs.getD k .null) ctx with ⟨r, m⟩
    rw [hf] at hfst
    simp only at hfst
    subst hfst
    have hset : xs.set k (xs.getD k .null) = xs := set_getD_self xs k
    cases r with
    | error e0 =>
      have hred : crossInner C ctx objJ j k (count + 1) xs = (.error e0, xs) := by
        simp only [crossInner, hf, hset]
      refine ⟨by rw [hred], ?_, ?_⟩
      · rw [hred]
        constructor
        · intro hcontr
          simp at hcontr
        · intro hall
          obtain ⟨objK, m2, hok, _⟩ := hall k (le_refl k) (by omega)
          rw [hf] at hok
          simp at hok
      · intro e he
        rw [hred] at he
        have he2 : e0 = e := by simpa using he
        left
        exact ⟨k, e0, xs.getD k .null, le_refl k, by omega, hf, he2.symm⟩
    | ok objK =>
      by_cases hcond : C.equals objJ (.inst objK) = decide (j = k)
      · have hred : crossInner C ctx objJ j k (count + 1) xs =
            crossInner C ctx objJ j (k + 1) count xs := by
          simp only [crossInner, hf, hset, if_pos hcond]
        obtain ⟨iha, ihb, ihc⟩ := ih (k + 1) xs
        refine ⟨by rw [hred]; exact iha, ?_, ?_⟩
        · rw [hred, ihb]
          constructor
          · intro hall k2 hk1 hk2
            rcases Nat.eq_or_lt_of_le hk1 with rfl | hlt
            · exact ⟨objK, xs.getD k .null, hf, hcond⟩
            · exact hall k2 hlt (by omega)
          · intro hall k2 hk1 hk2
            exact hall k2 (by omega) (by omega)
        · intro e he
          rw [hred] at he
          rcases ihc e he with ⟨k2, em, m2, hk1, hk2, hfe, hee⟩ |
            ⟨k2, objK2, m2, hk1, hk2, hfe, hne, hee⟩
          · exact Or.inl ⟨k2, em, m2, by omega, by omega, hfe, hee⟩
          · exact Or.inr ⟨k2, objK2, m2, by omega, by omega, hfe, hne, hee⟩
      · have hred : crossInner C ctx objJ j k (count + 1) xs =
            (.error (.assertion (crossEqualityMsg j k (C.equals objJ (.inst objK)))), xs) := by
          simp only [crossInner, hf, hset, if_neg hcond]
        refine ⟨by rw [hred], ?_, ?_⟩
        · rw [hred]
          constructor
          · intro hcontr
            simp at hcontr
          · intro hall
            obtain ⟨objK2, m2, hok, heq2⟩ := hall k (le_refl k) (by omega)
            rw [hf] at hok
            simp only [Prod.mk.injEq, Except.ok.injEq] at hok
            rw [← hok.1] at heq2
            exact absurd heq2 hcond
        · intro e he
          rw [hred] at he
          have he2 : JSError.assertion (crossEqualityMsg j k (C.equals objJ (.inst objK))) = e := by
            simpa using he
          exact Or.inr ⟨k, objK, xs.getD k .null, le_refl k, by omega, hf, hcond, he2.symm⟩

/-- Full characterization of the cross-sample outer loop for a non-mutating
class. -/
theorem crossOuter_spec {Inst : Type} (C : ClassSpec Inst) (ctx : Option JSValue)
    (hnm : NonMutating C) :
    ∀ (count j0 : Nat) (xs : List JSValue),
      (crossOuter C ctx j0 count xs).2 = xs ∧
      ((crossOuter C ctx j0 count xs).1 = .ok () ↔
        ∀ j k, j0 ≤ j → j ≤ k → k < j0 + count →
          ∃ objJ mJ objK mK,
            C.fromJS (xs.getD j .null) ctx = (.ok objJ, mJ) ∧
            C.fromJS (xs.getD k .null) ctx = (.ok objK, mK) ∧
            C.equals objJ (.inst objK) = decide (j = k)) ∧
      (∀ e, (crossOuter C ctx j0 count xs).1 = .error e →
        (∃ idx em m, C.fromJS (xs.getD idx .null) ctx = (.error em, m) ∧ e = em) ∨
        (∃ j k objJ mJ objK mK, j0 ≤ j ∧ j ≤ k ∧ k < j0 + count ∧
          C.fromJS (xs.getD j .null) ctx = (.ok objJ, mJ) ∧
          C.fromJS (xs.getD k .null) ctx = (.ok objK, mK) ∧
          C.equals objJ (.inst objK) ≠ decide (j = k) ∧
          e = .assertion (crossEqualityMsg j k (C.equals objJ (.inst objK))))) := by
  intro count
  induction count with
  | zero =>
    intro j0 xs
    refine ⟨rfl, ⟨fun _ j k h1 h2 h3 => absurd h3 (by omega), fun _ => rfl⟩, ?_⟩
    intro e he
    simp [crossOuter] at he
  | succ count ih =>
    intro j0 xs
    have hfst := hnm (xs.getD j0 .null) ctx
    rcases hf : C.fromJS (xs.getD j0 .null) ctx with ⟨r, m⟩
    rw [hf] at hfst
    simp only at hfst
    subst hfst
    have hset : xs.set j0 (xs.getD j0 .null) = xs := set_getD_self xs j0
    cases r with
    | error e0 =>
      have hred : crossOuter C ctx j0 (count + 1) xs = (.error e0, xs) := by
        simp only [crossOuter, hf, hset]
      refine ⟨by rw [hred], ?_, ?_⟩
      · rw [hred]
        constructor
        · intro h
          simp at h
        · intro hall
          obtain ⟨objJ, mJ, objK, mK, hokJ, _, _⟩ :=
            hall j0 j0 (le_refl j0) (le_refl j0) (by omega)
          rw [hf] at hokJ
          simp at hokJ
      · intro e he
        rw [hred] at he
        have he2 : e0 = e := by simpa using he
        exact Or.inl ⟨j0, e0, xs.getD j0 .null, hf, he2.symm⟩
    | ok objJ =>
      obtain ⟨inner2, innerOk, innerErr⟩ := crossInner_spec C ctx hnm objJ j0 (count + 1) j0 xs
      rcases hinner : crossInner C ctx objJ j0 j0 (count + 1) xs with ⟨ir, ixs⟩
      have hixs : ixs = xs := by
        rw [hinner] at inner2
        exact inner2
      rw [hixs] at hinner
      clear hixs
      cases ir with
      | error e1 =>
        have hred : crossOuter C ctx j0 (count + 1) xs = (.error e1, xs) := by
          simp only [crossOuter, hf, hset, hinner]
        have hce := innerErr e1 (by rw [hinner])
        refine ⟨by rw [hred], ?_, ?_⟩
        · rw [hred]
          constructor
          · intro h
            simp at h
          · intro hall
            have hok : (crossInner C ctx objJ j0 j0 (count + 1) xs).1 = .ok () := by
              rw [innerOk]
              intro k2 hk1 hk2
              obtain ⟨objJ2, mJ2, objK, mK, hokJ, hokK, heq⟩ :=
                hall j0 k2 (le_refl j0) hk1 (by omega)
              rw [hf] at hokJ
              simp only [Prod.mk.injEq, Except.ok.injEq] at hokJ
              refine ⟨objK, mK, hokK, ?_⟩
              rw [hokJ.1]
              exact heq
            rw [hinner] at hok
            simp at hok
        · intro e he
          rw [hred] at he
          have he2 : e1 = e := by simpa using he
          subst he2
          rcases hce with ⟨k2, em, m2, hk1, hk2, hfe, hee⟩ |
            ⟨k2, objK, m2, hk1, hk2, hfe, hne, hee⟩
          · exact Or.inl ⟨k2, em, m2, hfe, hee⟩
          · exact Or.inr ⟨j0, k2, objJ, xs.getD j0 .null, objK, m2, le_refl j0, hk1,
              by omega, hf, hfe, hne, hee⟩
      | ok u =>
        have hinner2 : crossInner C ctx objJ j0 j0 (count + 1) xs = (.ok (), xs) := by
          rw [hinner]
        have hred : crossOuter C ctx j0 (count + 1) xs = crossOuter C ctx (j0 + 1) count xs := by
          simp only [crossOuter, hf, hset, hinner2]
        have hinnerAll := innerOk.mp (by rw [hinner2])
        obtain ⟨oa, ob, oc⟩ := ih (j0 + 1) xs
        refine ⟨by rw [hred]; exact oa, ?_, ?_⟩
        · rw [hred, ob]
          constructor
          · intro hall j k h1 h2 h3
            rcases Nat.eq_or_lt_of_le h1 with rfl | hlt
            · obtain ⟨objK, mK, hokK, heq⟩ := hinnerAll k h2 (by omega)
              exact ⟨objJ, xs.getD j0 .null, objK, mK, hf, hokK, heq⟩
            · exact hall j k (by omega) h2 (by omega)
          · intro hall j k h1 h2 h3
            exact hall j k (by omega) h2 (by omega)
        · intro e he
          rw [hred] at he
          rcases oc e he with h | ⟨j, k, objJ2, mJ2, objK, mK, h1, h2, h3, h4, h5, h6, h7⟩
          · exact Or.inl h
          · exact Or.inr ⟨j, k, objJ2, mJ2, objK, mK, by omega, h2, by omega, h4, h5, h6, h7⟩

/-- C2: Cross-sample equality phase, for a non-mutating class (so that
the live array contents coincide with the original samples).  First conjunct:
the phase succeeds exactly when every ordered pair `(j, k)` with `j ≤ k` of
sample indices yields — via two independent `fromJS` calls with the
context — instances with `objectJ.equals(objectK) = (j = k)`.  Second
conjunct: an error of the phase is either a propagated `fromJS` throw or the
cross-equality assertion naming the offending pair `(j, k)`.  Third conjunct:
whenever the whole checker succeeds, the pairwise property holds of the
original samples. -/
theorem C2_cross_equality {Inst : Type} (C : ClassSpec Inst) (opts : TesterOptions)
    (hnm : NonMutating C) :
    (∀ xs : List JSValue,
      ((crossPhase C opts.context xs).1 = .ok () ↔ PairwiseEqualsOk C opts.context xs)) ∧
    (∀ (xs : List JSValue) (e : JSError), (crossPhase C opts.context xs).1 = .error e →
      (∃ idx em m, C.fromJS (xs.getD idx .null) opts.context = (.error em, m) ∧ e = em) ∨
      (∃ j k objJ mJ objK mK, j ≤ k ∧ k < xs.length ∧
        C.fromJS (xs.getD j .null) opts.context = (.ok objJ, mJ) ∧
        C.fromJS (xs.getD k .null) opts.context = (.ok objK, mK) ∧
        C.equals objJ (.inst objK) ≠ decide (j = k) ∧
        e = .assertion (crossEqualityMsg j k (C.equals objJ (.inst objK))))) ∧
    (∀ (x0 : JSValue) (rest : List JSValue) (v : JSValue),
      testImmutableClass C (.arr (x0 :: rest)) opts = (.ok (), v) →
      PairwiseEqualsOk C opts.context (x0 :: rest)) := by
  have hmain := crossOuter_spec C opts.context hnm
  refine ⟨?_, ?_, ?_⟩
  · intro xs
    obtain ⟨_, hok, _⟩ := hmain xs.length 0 xs
    unfold crossPhase PairwiseEqualsOk
    rw [hok]
    constructor
    · intro h j k h2 h3
      exact h j k (Nat.zero_le j) h2 (by omega)
    · intro h j k _ h2 h3
      exact h j k h2 (by omega)
  · intro xs e he
    obtain ⟨_, _, herr⟩ := hmain xs.length 0 xs
    rcases herr e he with h | ⟨j, k, a, b, c, d, h1, h2, h3, h4, h5, h6, h7⟩
    · exact Or.inl h
    · exact Or.inr ⟨j, k, a, b, c, d, h2, by omega, h4, h5, h6, h7⟩
  · intro x0 rest v h
    obtain ⟨_, out, _, hcm⟩ := testImmutableClass_ok C opts x0 rest v h
    obtain ⟨_, _, inst0, x0After, hfrom, _, _, _, hcross⟩ :=
      checkerMain_ok C opts x0 rest out hcm
    have hx : x0After = x0 := by
      have h2 := hnm x0 opts.context
      rw [hfrom] at h2
      exact h2
    rw [hx] at hcross
    obtain ⟨_, hok, _⟩ := hmain (x0 :: rest).length 0 (x0 :: rest)
    have h1 : (crossPhase C opts.context (x0 :: rest)).1 = .ok () := by rw [hcross]
    unfold crossPhase at h1
    have hall := hok.mp h1
    intro j k h2 h3
    exact hall j k (Nat.zero_le j) h2 (by omega)

/-- Witness for C2: from the successful `Animal` run, instances built from
samples 0 and 1 compare unequal (`decide (0 = 1) = false`). -/
theorem C2_cross_equality_witness :
    AnimalSpec.equals (.str "Koala") (.inst (.str "Snake")) = false := by
  have hnm : NonMutating AnimalSpec := fun v ctx => rfl
  have hpw := (C2_cross_equality AnimalSpec {} hnm).2.2 (.str "Koala")
    [.str "Snake", .str "Dog", .str "Cat"]
    (.arr [.str "Koala", .str "Snake", .str "Dog", .str "Cat"]) animal_suite_ok
  obtain ⟨objJ, mJ, objK, mK, h4, h5, h6⟩ := hpw 0 1 (by omega) (by decide)
  have h4b : ((Except.ok (JSValue.str "Koala") : Except JSError JSValue),
      JSValue.str "Koala") = (Except.ok objJ, mJ) := h4
  have h5b : ((Except.ok (JSValue.str "Snake") : Except JSError JSValue),
      JSValue.str "Snake") = (Except.ok objK, mK) := h5
  simp only [Prod.mk.injEq, Except.ok.injEq] at h4b h5b
  rw [← h4b.1, ← h5b.1] at h6
  simpa using h6

/-- The `[in object i]` tag occurs in a message that ends with it. -/
theorem whereTag_in_right (a : String) (i : Nat) :
    containsSubstring (a ++ whereTag i) (whereTag i) :=
  containsSubstring_append_left _ _ _ (containsSubstring_self _)

/-- Assertion messages producible by the `newThrows` branch. -/
theorem newThrowsCheck_assertion_msgs {Inst : Type} (C : ClassSpec Inst) (nt : Bool)
    (i : Nat) (inst : Inst) (ivo : JSValue) (msg : String)
    (hclean2 : ∀ v s, C.construct v ≠ .error (.assertion s))
    (h : newThrowsCheck C nt i inst ivo = .error (.assertion msg)) :
    msg = newDidNotThrowMsg C.name i ∨ msg = newNotEqualMsg C.name i ∨
    ∃ a b, msg = newToJSBadMsg C.name i a b := by
  unfold newThrowsCheck at h
  split at h
  · split at h
    · simp at h
    · simp only [Except.error.injEq, JSError.assertion.injEq] at h
      exact Or.inl h.symm
  · split at h
    case _ e hc =>
      simp only [Except.error.injEq] at h
      rw [h] at hc
      exact absurd hc (hclean2 ivo msg)
    case _ ivc hc =>
      split at h
      · simp only [Except.error.injEq, JSError.assertion.injEq] at h
        exact Or.inr (Or.inl h.symm)
      · split at h
        · simp only [Except.error.injEq, JSError.assertion.injEq] at h
          exact Or.inr (Or.inr ⟨_, _, h.symm⟩)
        · simp at h

/-- Assertion messages producible by the JSON round-trip check. -/
theorem jsonCopyCheck_assertion_msgs {Inst : Type} (C : ClassSpec Inst)
    (ctx : Option JSValue) (i : Nat) (inst : Inst) (msg : String)
    (hclean1 : ∀ v ctx2 m s, C.fromJS v ctx2 ≠ (.error (.assertion s), m))
    (h : jsonCopyCheck C ctx i inst = .error (.assertion msg)) :
    msg = jsCopyNotEqualMsg i ∨ ∃ a b, msg = jsonRoundTripBadMsg C.name i a b := by
  unfold jsonCopyCheck at h
  split at h
  · simp [jsonParseUndefErr] at h
  · split at h
    case _ e m2 hf =>
      simp only [Except.error.injEq] at h
      rw [h] at hf
      exact absurd hf (hclean1 _ ctx m2 msg)
    case _ instJ mJ hf =>
      split at h
      · simp only [Except.error.injEq, JSError.assertion.injEq] at h
        exact Or.inl h.symm
      · split at h
        · simp only [Except.error.injEq, JSError.assertion.injEq] at h
          exact Or.inr ⟨_, _, h.symm⟩
        · simp at h

/-- Every assertion message the per-sample loop body can raise, when the
candidate's own code never throws chai assertion errors. -/
theorem perObjectCheck_assertion_msgs {Inst : Type} (C : ClassSpec Inst)
    (opts : TesterOptions) (i : Nat) (obj : JSValue) (msg : String)
    (hclean : NoAssertionThrows C)
    (h : perObjectCheck C opts i obj = .error (.assertion msg)) :
    (∃ a b, msg = modifiedInputMsg C.name a b) ∨
    msg = notInstanceMsg C.name i ∨
    (∃ v, msg = toStringNotStringMsg C.name i v) ∨
    msg = equalsNullMsg C.name i ∨
    msg = equalsEmptyArrayMsg C.name i ∨
    (∃ a b, msg = fixedPointMsg C.name i a b) ∨
    msg = equalsValueOfMsg i ∨
    msg = equalsLazyCopyMsg i ∨
    msg = newDidNotThrowMsg C.name i ∨
    msg = newNotEqualMsg C.name i ∨
    (∃ a b, msg = newToJSBadMsg C.name i a b) ∨
    msg = jsCopyNotEqualMsg i ∨
    (∃ a b, msg = jsonRoundTripBadMsg C.name i a b) := by
  unfold perObjectCheck at h
  split at h
  · simp [jsonParseUndefErr] at h
  case _ copy hnorm =>
    split at h
    case _ e m2 hf =>
      simp only [Except.error.injEq] at h
      rw [h] at hf
      exact absurd hf (hclean.1 _ _ m2 msg)
    case _ inst m2 hf =>
      split at h
      · simp only [Except.error.injEq, JSError.assertion.injEq] at h
        exact Or.inl ⟨_, _, h.symm⟩
      · split at h
        · simp only [Except.error.injEq, JSError.assertion.injEq] at h
          exact Or.inr (Or.inl h.symm)
        · split at h
          · simp only [Except.error.injEq, JSError.assertion.injEq] at h
            exact Or.inr (Or.inr (Or.inl ⟨_, h.symm⟩))
          · split at h
            · simp only [Except.error.injEq, JSError.assertion.injEq] at h
              exact Or.inr (Or.inr (Or.inr (Or.inl h.symm)))
            · split at h
              · simp only [Except.error.injEq, JSError.assertion.injEq] at h
                exact Or.inr (Or.inr (Or.inr (Or.inr (Or.inl h.symm))))
              · split at h
                · simp only [Except.error.injEq, JSError.assertion.injEq] at h
                  exact Or.inr (Or.inr (Or.inr (Or.inr (Or.inr (Or.inl ⟨_, _, h.symm⟩)))))
                · split at h
                  · simp only [Except.error.injEq, JSError.assertion.injEq] at h
                    exact Or.inr (Or.inr (Or.inr (Or.inr (Or.inr (Or.inr (Or.inl h.symm))))))
                  · split at h
                    · simp only [Except.error.injEq, JSError.assertion.injEq] at h
                      exact Or.inr (Or.inr (Or.inr (Or.inr (Or.inr (Or.inr (Or.inr
                        (Or.inl h.symm)))))))
                    · split at h
                      case _ hntc =>
                        rcases newThrowsCheck_assertion_msgs C opts.newThrows i inst
                            (C.valueOf inst) msg hclean.2 (hntc.trans h) with
                          h1 | h1 | ⟨a, b, h1⟩
                        · exact Or.inr (Or.inr (Or.inr (Or.inr (Or.inr (Or.inr (Or.inr
                            (Or.inr (Or.inl h1))))))))
                        · exact Or.inr (Or.inr (Or.inr (Or.inr (Or.inr (Or.inr (Or.inr
                            (Or.inr (Or.inr (Or.inl h1)))))))))
                        · exact Or.inr (Or.inr (Or.inr (Or.inr (Or.inr (Or.inr (Or.inr
                            (Or.inr (Or.inr (Or.inr (Or.inl ⟨a, b, h1⟩))))))))))
                      case _ hntc =>
                        rcases jsonCopyCheck_assertion_msgs C opts.context i inst msg
                            hclean.1 h with h1 | ⟨a, b, h1⟩
                        · exact Or.inr (Or.inr (Or.inr (Or.inr (Or.inr (Or.inr (Or.inr
                            (Or.inr (Or.inr (Or.inr (Or.inr (Or.inl h1)))))))))))
                        · exact Or.inr (Or.inr (Or.inr (Or.inr (Or.inr (Or.inr (Or.inr
                            (Or.inr (Or.inr (Or.inr (Or.inr (Or.inr ⟨a, b, h1⟩)))))))))))

/-- The input-modification message is recognized by `isModifiedInputMsgOf`. -/
theorem isModifiedInputMsgOf_modifiedInputMsg (nm : String) (a b : JSValue) :
    isModifiedInputMsgOf nm (modifiedInputMsg nm a b) = true := by
  unfold isModifiedInputMsgOf modifiedInputMsg
  rw [List.isPrefixOf_iff_prefix]
  exact ⟨(deepEqualSuffix a b).toList,
    by simp [String.toList, String.data_append, List.append_assoc]⟩

/-- C7 (amended): Every chai assertion message the per-sample loop body
can raise — for a candidate whose own code never throws chai assertion
errors — either is the input-modification message (which carries **no**
`[in object i]` tag, correcting the original claim) or contains the
`[in object i]` tag for the index `i` at which the body ran. -/
theorem C7_per_sample_message_tags {Inst : Type} (C : ClassSpec Inst)
    (opts : TesterOptions) (i : Nat) (obj : JSValue) (msg : String)
    (hclean : NoAssertionThrows C)
    (herr : perObjectCheck C opts i obj = .error (.assertion msg)) :
    isModifiedInputMsgOf C.name msg = true ∨ containsSubstring msg (whereTag i) := by
  rcases perObjectCheck_assertion_msgs C opts i obj msg hclean herr with
    ⟨a, b, h⟩ | h | ⟨v, h⟩ | h | h | ⟨a, b, h⟩ | h | h | h | h | ⟨a, b, h⟩ | h | ⟨a, b, h⟩
  · exact Or.inl (h ▸ isModifiedInputMsgOf_modifiedInputMsg C.name a b)
  all_goals refine Or.inr ?_
  all_goals subst h
  all_goals simp only [notInstanceMsg, toStringNotStringMsg, equalsNullMsg,
    equalsEmptyArrayMsg, fixedPointMsg, equalsValueOfMsg, equalsLazyCopyMsg,
    newDidNotThrowMsg, newNotEqualMsg, newToJSBadMsg, jsCopyNotEqualMsg,
    jsonRoundTripBadMsg]
  all_goals repeat first
    | exact whereTag_in_right _ _
    | apply containsSubstring_append_right

set_option maxRecDepth 4000 in
/-- Counterexample to C7 as stated: the error raised when `fromJS` is found
to have modified its input does **not** carry the `[in object 0]` tag. -/
theorem C7_per_sample_message_tags_counterexample :
    (testImmutableClass AnimalMutatesInput (.arr [.str "Koala"]) {}).1 =
      .error (.assertion
        (modifiedInputMsg "AnimalMutatesInput" (.str "Koala!!") (.str "Koala!"))) ∧
    ¬ containsSubstring
      (modifiedInputMsg "AnimalMutatesInput" (.str "Koala!!") (.str "Koala!"))
      (whereTag 0) :=
  ⟨rfl, by decide⟩

/-- Witness for C7 (amended): the `equals(null)` failure message of a
concrete run carries the `[in object 0]` tag. -/
theorem C7_per_sample_message_tags_witness :
    containsSubstring (equalsNullMsg "AnimalEqualsNull" 0) (whereTag 0) := by
  have hclean : NoAssertionThrows AnimalEqualsNull := by
    constructor
    · intro v ctx m s h
      cases v <;> simp [AnimalEqualsNull, AnimalSpec, animalFromJS] at h
    · intro v s h
      simp [AnimalEqualsNull, AnimalSpec] at h
  have happ := C7_per_sample_message_tags AnimalEqualsNull {} 0 (.str "Koala")
    (equalsNullMsg "AnimalEqualsNull" 0) hclean rfl
  exact happ.resolve_left (by decide)
